import Mathlib

/-
Verification development for the meetcode-socket lobby coordinator
(src/src/server.js, first and authoritative variant, lines 1-746).

Shallow embedding notes:
- JS `Map` objects are modelled as insertion-ordered association lists with
  unique keys: `set` on an existing key updates the value in place, `set` on a
  new key appends, `delete` removes the entry.  This matches the iteration
  order guarantees of ECMAScript `Map`.
- Timers (`setTimeout` / `setInterval`) are modelled as pending flags or
  entries in the state; a timer firing is an explicit event that is a no-op
  when the timer was cancelled (`clearTimeout` removes the pending entry).
  After `clearInterval(lobby.timer.intervalId)` the `intervalId` field itself
  stays truthy (JS `clearInterval` does not null the variable), which the
  model captures by keeping `timer` as `some` with `intervalCleared := true`.
- The `async` suspension points (the backend `fetch` calls) split the handlers:
  the synchronous prefix runs in the triggering event, and the continuation
  after `await` is a separate `startResolve` / `endResolve` event, so other
  events can interleave exactly as on the Node event loop.
- The backend (GraphQL over fetch) is an external collaborator: the outcome of
  `validateChallengeAccess` is an oracle bit carried on the join message, and
  the start/end mutations are recorded as outputs; their resolutions carry an
  `ok` bit (fetch success or caught failure).
- Wall-clock values (startTime, endTime, disconnectedAt, completedAt) are
  omitted: no claim depends on them, only on which timers are pending.
- Numeric payloads are modelled as Nat; JS `a || b` on numbers is `jsOr`
  (0 is the only falsy Nat that occurs).
-/

namespace MeetcodeSocket

/-- Models JS `a || b` for numeric values: 0 is falsy. -/
def jsOr (a b : Nat) : Nat := if a = 0 then b else a

/-! ### Association lists modelling JS `Map` (insertion order, unique keys) -/

/-- `Map.get`: value of the first entry with the given key. -/
def aget {V : Type} : List (String × V) → String → Option V
  | [], _ => none
  | (k, v) :: rest, k0 => if k = k0 then some v else aget rest k0

/-- `Map.set`: replace the value of an existing key in place, else append. -/
def aset {V : Type} : List (String × V) → String → V → List (String × V)
  | [], k0, v0 => [(k0, v0)]
  | (k, v) :: rest, k0, v0 =>
    if k = k0 then (k0, v0) :: rest else (k, v) :: aset rest k0 v0

/-- `Map.delete`: remove the entry with the given key. -/
def adel {V : Type} : List (String × V) → String → List (String × V)
  | [], _ => []
  | (k, v) :: rest, k0 => if k = k0 then rest else (k, v) :: adel rest k0

/-- The keys of an association list, in iteration order. -/
def keysOf {V : Type} (l : List (String × V)) : List String := l.map Prod.fst

/-! ### Data model (src/src/server.js lines 36-44 and 86-96) -/

/-- One entry of `lobby.players` (server.js lines 87-96). -/
structure Player where
  ready : Bool
  socket : Nat
  running : Bool
  testsPassed : Nat
  submitted : Bool
  submittedResults : Nat
  submittedTestsPassed : Nat
  latestScore : Nat
deriving Repr, DecidableEq

/-- The default record created for a fresh participant (server.js lines 87-96). -/
def freshPlayer (sock : Nat) : Player :=
  { ready := false
    socket := sock
    running := false
    testsPassed := 0
    submitted := false
    submittedResults := 0
    submittedTestsPassed := 0
    latestScore := 0 }

/-- One entry of `lobby.disconnectedPlayers` (server.js lines 554-558):
the `{...player}` snapshot; the pending grace timer is modelled by the
presence of the entry itself, `disconnectedAt` is a wall-clock value. -/
structure DiscEntry where
  playerData : Player
deriving Repr, DecidableEq

/-- One entry of `lobby.completedPlayers` (server.js lines 296-300):
the `{...player}` snapshot plus `finalScore`; `completedAt` is wall-clock. -/
structure CompEntry where
  snapshot : Player
  finalScore : Nat
deriving Repr, DecidableEq

inductive Status where
  | WAITING
  | IN_PROGRESS
  | ENDED
deriving Repr, DecidableEq

/-- `lobby.timer`: startTime/endTime are wall-clock and omitted;
`intervalCleared` records whether `clearInterval` ran (the `intervalId`
field itself stays truthy either way). -/
structure ChallengeTimer where
  intervalCleared : Bool
deriving Repr, DecidableEq

/-- A lobby record (server.js lines 36-44), extended with the implicit
`started` flag (line 172) and with pending-timer / pending-continuation
flags for the timeouts and awaited fetches. -/
structure Lobby where
  players : List (String × Player)
  completedPlayers : List (String × CompEntry)
  disconnectedPlayers : List (String × DiscEntry)
  timer : Option ChallengeTimer
  status : Status
  challengeEnded : Bool
  started : Bool
  inactivityPending : Bool
  pendingStart : Bool
  pendingEndConfirm : Bool
  backstopPending : Bool
  cleanupScheduled : Bool
deriving Repr, DecidableEq

/-- The lobby created on first reference to a cid (server.js lines 36-44);
`resetLobbyInactivityTimer` is called right after creation, hence
`inactivityPending := true`. -/
def freshLobby : Lobby :=
  { players := []
    completedPlayers := []
    disconnectedPlayers := []
    timer := none
    status := Status.WAITING
    challengeEnded := false
    started := false
    inactivityPending := true
    pendingStart := false
    pendingEndConfirm := false
    backstopPending := false
    cleanupScheduled := false }

/-- Whole-process state: the `lobbies` map plus which sockets are closed
(`readyState !== OPEN`). -/
structure SysState where
  lobbies : List (String × Lobby)
  closedSockets : List Nat
deriving Repr, DecidableEq

def initState : SysState := { lobbies := [], closedSockets := [] }

/-! ### Scoring and ranking (server.js lines 445-470) -/

/-- An element of the `allPlayers` array built in `endChallenge`
(username, score, and the `status: active/completed` tag). -/
structure PrePlayer where
  username : String
  score : Nat
  pstatus : String
deriving Repr, DecidableEq

/-- One element of `participantScores` (server.js lines 465-469). -/
structure ScoreEntry where
  username : String
  score : Nat
  rank : Nat
deriving Repr, DecidableEq

/-- Stable insertion of `x` in front of the first element it need not
follow.  `x` stands for an element that occurs EARLIER in the input than
everything in the list, so the ECMAScript stable sort with comparator
`(a, b) => b.score - a.score` places `x` before `y` exactly when
`y.score <= x.score`. -/
def insertDesc (x : PrePlayer) : List PrePlayer → List PrePlayer
  | [] => [x]
  | y :: ys => if y.score ≤ x.score then x :: y :: ys else y :: insertDesc x ys

/-- `allPlayers.sort((a, b) => b.score - a.score)`: ECMAScript
`Array.prototype.sort` is required to be stable, and a stable sort under a
consistent comparator has a unique result, computed here by stable
insertion sort. -/
def sortDesc : List PrePlayer → List PrePlayer
  | [] => []
  | x :: xs => insertDesc x (sortDesc xs)

/-- `allPlayers.forEach((player, index) => participantScores.push({..., rank: index + 1}))`. -/
def assignRanks : Nat → List PrePlayer → List ScoreEntry
  | _, [] => []
  | i, p :: ps =>
    { username := p.username, score := p.score, rank := i + 1 } :: assignRanks (i + 1) ps

/-- The `allPlayers` concatenation (server.js lines 448-459): active
players scored by `submittedResults || 0`, then completed players scored
by `finalScore || submittedResults || 0`, each map in iteration order. -/
def allPlayersOf (l : Lobby) : List PrePlayer :=
  l.players.map (fun e => { username := e.1, score := jsOr e.2.submittedResults 0, pstatus := "active" })
    ++ l.completedPlayers.map (fun e =>
        { username := e.1, score := jsOr (jsOr e.2.finalScore e.2.snapshot.submittedResults) 0,
          pstatus := "completed" })

/-- The combined list exactly as the spec words it (section 4.6): active
participants scored by `submittedResults` (default 0), completed
participants scored by `finalScore`. -/
def specAllPlayersOf (l : Lobby) : List PrePlayer :=
  l.players.map (fun e => { username := e.1, score := e.2.submittedResults, pstatus := "active" })
    ++ l.completedPlayers.map (fun e =>
        { username := e.1, score := e.2.finalScore, pstatus := "completed" })

/-- `participantScores` as computed by `endChallenge` (lines 445-470). -/
def finalScoresOf (l : Lobby) : List ScoreEntry :=
  assignRanks 0 (sortDesc (allPlayersOf l))

/-! ### Inbound and outbound events -/

inductive MsgType where
  | join
  | ready
  | codeRunning
  | codeFinished
  | testResults
  | codeSubmitted
  | endChallenge
  | endChallengeForUser
  | unknown
deriving Repr, DecidableEq

/-- A parsed inbound client message.  `joinOk` is the oracle outcome of
`validateChallengeAccess` (a remote call), consulted only for joins. -/
structure Msg where
  sock : Nat
  type : MsgType
  cid : String
  username : String
  testsPassed : Option Nat
  submittedResults : Option Nat
  joinOk : Bool
deriving Repr, DecidableEq

/-- Outbound JSON event tags; payload fields are carried only where a
claim refers to them. -/
inductive OutEvent where
  | joinError
  | lobbyState
  | playerJoined
  | playerReadyToggle
  | playerCodeRunning
  | playerCodeFinished
  | playerTestResults
  | playerCodeSubmitted
  | canEndChallenge
  | playerCompletedAndLeft
  | challengeEndedForUser
  | cannotEndYet (passed : Nat)
  | playerDisconnected (username : String)
  | playerReconnected (username : String)
  | playerLeft (username : String)
  | timerStarted
  | timerUpdate
  | challengeEnded (reason : String) (finalScores : List ScoreEntry)
  | challengeEndedConfirmed
  | challengeStarted
  | lobbyClosed
deriving Repr, DecidableEq

/-- Observable effects: socket sends and backend (GraphQL) calls. -/
inductive Output where
  | send (sock : Nat) (ev : OutEvent)
  | backendValidate (cid username : String)
  | backendStart (cid : String)
  | backendEnd (cid : String) (scores : List ScoreEntry)
deriving Repr, DecidableEq

/-- System-level events: inbound messages, socket closures, and the timer
firings / awaited-fetch resolutions that the Node event loop schedules. -/
inductive Event where
  | msg (m : Msg)
  | socketClose (sock : Nat)
  | graceExpire (cid username : String)
  | tickExpire (cid : String)
  | backstopFire (cid : String)
  | startResolve (cid : String) (ok : Bool)
  | endResolve (cid : String) (ok : Bool)
  | cleanupFire (cid : String)
  | inactivityFire (cid : String)
deriving Repr, DecidableEq

/-! ### The operations -/

/-- `broadcast(cid, message, excludeSocket)` (server.js lines 661-674):
send to every entry of the active-players map whose socket is open and is
not the excluded one, in iteration order. -/
def broadcastSends (closed : List Nat) (l : Lobby) (ev : OutEvent) (excl : Option Nat) :
    List Output :=
  l.players.filterMap (fun e =>
    if e.2.socket ∉ closed ∧ excl ≠ some e.2.socket then some (Output.send e.2.socket ev)
    else none)

def setLobby (s : SysState) (cid : String) (l : Lobby) : SysState :=
  { s with lobbies := aset s.lobbies cid l }

/-- The lobby after the flag updates of `endChallenge` (lines 437-443):
`challengeEnded` set, status ENDED, interval tick cleared, backend
confirmation pending. -/
def endedLobby (l : Lobby) : Lobby :=
  { l with
    challengeEnded := true
    status := Status.ENDED
    timer := l.timer.map (fun t => { t with intervalCleared := true })
    pendingEndConfirm := true }

/-- The synchronous prefix of `endChallenge(cid, reason)` (server.js lines
431-517): guard on missing lobby / `challengeEnded`, set the flags, clear
the tick interval, compute `participantScores`, broadcast `challengeEnded`,
issue the backend mutation.  The continuation after the awaited fetch is
the separate `endResolve` event. -/
def endChallenge (s : SysState) (cid reason : String) : SysState × List Output :=
  match aget s.lobbies cid with
  | none => (s, [])
  | some l =>
    if l.challengeEnded then (s, [])
    else
      (setLobby s cid (endedLobby l),
        broadcastSends s.closedSockets (endedLobby l)
            (OutEvent.challengeEnded reason (finalScoresOf l)) none
          ++ [Output.backendEnd cid (finalScoresOf l)])

/-- The pre-dispatch participant tracking (server.js lines 61-103): the
reconnection branch (cancel grace timer, rebind socket, restore the
snapshot verbatim, broadcast `playerReconnected`), else create a default
record or rebind the socket; finally `resetLobbyInactivityTimer`. -/
def applyTrack (closed : List Nat) (l : Lobby) (username : String) (sock : Nat) :
    Lobby × List Output :=
  let tr :=
    match aget l.disconnectedPlayers username with
    | some d =>
      let l1 := { l with
        players := aset l.players username { d.playerData with socket := sock }
        disconnectedPlayers := adel l.disconnectedPlayers username }
      (l1, broadcastSends closed l1 (OutEvent.playerReconnected username) (some sock))
    | none =>
      match aget l.players username with
      | some p => ({ l with players := aset l.players username { p with socket := sock } }, [])
      | none => ({ l with players := aset l.players username (freshPlayer sock) }, [])
  ({ tr.1 with inactivityPending := decide (tr.1.status = Status.WAITING) }, tr.2)

/-- The `switch (type)` dispatch (server.js lines 105-323), applied to the
state `s2` in which the tracked lobby `l` is already installed at `m.cid`. -/
def dispatch (s2 : SysState) (closed : List Nat) (m : Msg) (l : Lobby) :
    SysState × List Output :=
  match m.type with
  | MsgType.join =>
    (s2, Output.send m.sock OutEvent.lobbyState
          :: broadcastSends closed l OutEvent.playerJoined (some m.sock))
  | MsgType.ready =>
    match aget l.players m.username with
    | none => (s2, [])
    | some p =>
      if l.status = Status.WAITING then
        let l1 := { l with players := aset l.players m.username { p with ready := !p.ready } }
        let outs1 := broadcastSends closed l1 OutEvent.playerReadyToggle none
        if ((!l1.players.isEmpty && l1.players.all (fun e => e.2.ready)) && !l1.started) then
          (setLobby s2 m.cid { l1 with started := true, pendingStart := true },
            outs1 ++ [Output.backendStart m.cid])
        else (setLobby s2 m.cid l1, outs1)
      else (s2, [])
  | MsgType.codeRunning =>
    match aget l.players m.username with
    | none => (s2, [])
    | some p =>
      let l1 := { l with players := aset l.players m.username { p with running := true } }
      (setLobby s2 m.cid l1, broadcastSends closed l1 OutEvent.playerCodeRunning none)
  | MsgType.codeFinished =>
    match aget l.players m.username with
    | none => (s2, [])
    | some p =>
      let l1 := { l with players := aset l.players m.username { p with running := false } }
      (setLobby s2 m.cid l1, broadcastSends closed l1 OutEvent.playerCodeFinished none)
  | MsgType.testResults =>
    match aget l.players m.username, m.testsPassed with
    | some p, some v =>
      let p1 := { p with testsPassed := v, latestScore := v }
      let l1 := { l with players := aset l.players m.username p1 }
      (setLobby s2 m.cid l1, broadcastSends closed l1 OutEvent.playerTestResults none)
    | _, _ => (s2, [])
  | MsgType.codeSubmitted =>
    match aget l.players m.username, m.submittedResults, m.testsPassed with
    | some p, some r, some t =>
      let p1 := { p with
        submitted := true
        submittedResults := r
        submittedTestsPassed := t
        latestScore := r }
      let l1 := { l with players := aset l.players m.username p1 }
      let outs := broadcastSends closed l1 OutEvent.playerCodeSubmitted none
      if t = 12 then
        (setLobby s2 m.cid l1, outs ++ broadcastSends closed l1 OutEvent.canEndChallenge none)
      else (setLobby s2 m.cid l1, outs)
    | _, _, _ => (s2, [])
  | MsgType.endChallenge =>
    if l.status = Status.IN_PROGRESS ∧ l.challengeEnded = false then
      endChallenge s2 m.cid (String.append "Ended by " m.username)
    else (s2, [])
  | MsgType.endChallengeForUser =>
    match aget l.players m.username with
    | none => (s2, [])
    | some p =>
      if l.status = Status.IN_PROGRESS ∧ l.challengeEnded = false ∧ p.submittedTestsPassed = 12 then
        let outs1 := broadcastSends closed l OutEvent.playerCompletedAndLeft (some p.socket)
          ++ [Output.send p.socket OutEvent.challengeEndedForUser]
        let l1 := { l with
          completedPlayers := aset l.completedPlayers m.username
            { snapshot := p, finalScore := jsOr p.submittedResults 0 }
          players := adel l.players m.username }
        let s3 := setLobby s2 m.cid l1
        if l1.players.isEmpty then
          let r := endChallenge s3 m.cid "All players completed"
          (r.1, outs1 ++ r.2)
        else (s3, outs1)
      else if p.submittedTestsPassed ≠ 12 then
        (s2, [Output.send p.socket (OutEvent.cannotEndYet (jsOr p.submittedTestsPassed 0))])
      else (s2, [])
  | MsgType.unknown => (s2, [])

/-- Processing of one inbound message (server.js lines 17-327): the
cid/username guard, join validation, lazy lobby creation, the ended-lobby
join guard, participant tracking, and the type dispatch. -/
def handleMsg (s : SysState) (m : Msg) : SysState × List Output :=
  if m.cid = "" ∨ m.username = "" then (s, [])
  else if m.type = MsgType.join ∧ m.joinOk = false then
    (s, [Output.backendValidate m.cid m.username, Output.send m.sock OutEvent.joinError])
  else
    let valOut := if m.type = MsgType.join then [Output.backendValidate m.cid m.username] else []
    let lobby0 := (aget s.lobbies m.cid).getD freshLobby
    if lobby0.challengeEnded = true ∧ m.type = MsgType.join then
      (s, valOut ++ [Output.send m.sock OutEvent.joinError])
    else
      let tr := applyTrack s.closedSockets lobby0 m.username m.sock
      let s2 := setLobby s m.cid tr.1
      let d := dispatch s2 s.closedSockets m tr.1
      (d.1, valOut ++ tr.2 ++ d.2)

/-- First active player bound to a given socket, scanning lobbies and
players in iteration order (server.js lines 542-544). -/
def findPlayerBySocket (sock : Nat) : List (String × Lobby) → Option (String × Lobby × String × Player)
  | [] => none
  | (cid, l) :: rest =>
    match l.players.find? (fun e => decide (e.2.socket = sock)) with
    | some e => some (cid, l, e.1, e.2)
    | none => findPlayerBySocket sock rest

/-- `schedulePlayerDisconnect(ws)` on socket close (server.js lines
541-575): mark the socket closed, move the first matching player to the
disconnected-pending map with a `{...player}` snapshot and a 5s grace
timer, broadcast the temporary-disconnect event. -/
def handleClose (s : SysState) (sock : Nat) : SysState × List Output :=
  let closed := sock :: s.closedSockets
  match findPlayerBySocket sock s.lobbies with
  | none => ({ s with closedSockets := closed }, [])
  | some (cid, l, u, p) =>
    let l1 := { l with
      disconnectedPlayers := aset l.disconnectedPlayers u { playerData := p }
      players := adel l.players u }
    ({ s with closedSockets := closed, lobbies := aset s.lobbies cid l1 },
      broadcastSends closed l1 (OutEvent.playerDisconnected u) none)

/-- Grace-timer expiry, i.e. `handlePlayerDisconnect(username, cid)`
(server.js lines 578-619).  The event is a no-op when the timer was
cancelled (entry absent) or the lobby is gone. -/
def handleGrace (s : SysState) (cid u : String) : SysState × List Output :=
  match aget s.lobbies cid with
  | none => (s, [])
  | some l =>
    match aget l.disconnectedPlayers u with
    | none => (s, [])
    | some _ =>
      let l1 := { l with disconnectedPlayers := adel l.disconnectedPlayers u }
      let s1 := setLobby s cid l1
      if l1.players.length + l1.disconnectedPlayers.length = 0 then
        if l1.status = Status.IN_PROGRESS ∧ l1.challengeEnded = false then
          endChallenge s1 cid "All players disconnected"
        else if l1.status = Status.WAITING then
          ({ s1 with lobbies := adel s1.lobbies cid }, [])
        else (s1, [])
      else if 0 < l1.players.length then
        (s1, broadcastSends s.closedSockets l1 (OutEvent.playerLeft u) none)
      else (s1, [])

/-- The 1-second interval tick at `remainingTime <= 0` (server.js lines
406-419): clear the interval and finalize.  Ticks with positive remaining
time only broadcast `timerUpdate` and are not modelled. -/
def handleTick (s : SysState) (cid : String) : SysState × List Output :=
  match aget s.lobbies cid with
  | none => (s, [])
  | some l =>
    match l.timer with
    | none => (s, [])
    | some t =>
      if t.intervalCleared then (s, [])
      else
        let l1 := { l with timer := some { t with intervalCleared := true } }
        endChallenge (setLobby s cid l1) cid "Timer expired"

/-- The backstop timeout (server.js lines 422-427): fires once at the
nominal deadline; `lobby.timer?.intervalId` stays truthy even after
`clearInterval`, so the guard only tests that a timer was created. -/
def handleBackstop (s : SysState) (cid : String) : SysState × List Output :=
  match aget s.lobbies cid with
  | none => (s, [])
  | some l =>
    if l.backstopPending then
      match l.timer with
      | none => (setLobby s cid { l with backstopPending := false }, [])
      | some t =>
        let l1 := { l with
          backstopPending := false
          timer := some { t with intervalCleared := true } }
        endChallenge (setLobby s cid l1) cid "Timer expired"
    else (s, [])

/-- Resumption after the awaited `startChallengeInBackend` fetch (server.js
lines 174-175 and 681-720): broadcast `challengeStarted` on success, then
`startChallengeTimer` (status IN_PROGRESS, timer creation, `timerStarted`
broadcast, backstop scheduling) runs regardless of fetch outcome. -/
def handleStartResolve (s : SysState) (cid : String) (ok : Bool) : SysState × List Output :=
  match aget s.lobbies cid with
  | none => (s, [])
  | some l =>
    if l.pendingStart then
      let l1 := { l with pendingStart := false }
      let outs1 := if ok then broadcastSends s.closedSockets l1 OutEvent.challengeStarted none
                   else []
      let l2 := { l1 with
        status := Status.IN_PROGRESS
        timer := some { intervalCleared := false }
        backstopPending := true }
      (setLobby s cid l2, outs1 ++ broadcastSends s.closedSockets l2 OutEvent.timerStarted none)
    else (s, [])

/-- Resumption after the awaited backend `endChallenge` fetch (server.js
lines 481-537): broadcast `challengeEndedConfirmed` on success; the 30s
disposal timeout is scheduled after the try/catch either way. -/
def handleEndResolve (s : SysState) (cid : String) (ok : Bool) : SysState × List Output :=
  match aget s.lobbies cid with
  | none => (s, [])
  | some l =>
    if l.pendingEndConfirm then
      let l1 := { l with pendingEndConfirm := false, cleanupScheduled := true }
      (setLobby s cid l1,
        if ok then broadcastSends s.closedSockets l1 OutEvent.challengeEndedConfirmed none
        else [])
    else (s, [])

/-- The 30s disposal timeout (server.js lines 524-537): clear remaining
disconnect timers (their entries die with the lobby) and delete the lobby. -/
def handleCleanup (s : SysState) (cid : String) : SysState × List Output :=
  match aget s.lobbies cid with
  | none => (s, [])
  | some l =>
    if l.cleanupScheduled then ({ s with lobbies := adel s.lobbies cid }, [])
    else (s, [])

/-- The 3-minute inactivity timeout (server.js lines 723-746): if the lobby
is still WAITING, notify every open connection and delete it. -/
def handleInactivity (s : SysState) (cid : String) : SysState × List Output :=
  match aget s.lobbies cid with
  | none => (s, [])
  | some l =>
    if l.inactivityPending then
      if l.status = Status.WAITING then
        ({ s with lobbies := adel s.lobbies cid },
          broadcastSends s.closedSockets l OutEvent.lobbyClosed none)
      else (setLobby s cid { l with inactivityPending := false }, [])
    else (s, [])

/-- One step of the event loop. -/
def step (s : SysState) : Event → SysState × List Output
  | Event.msg m => handleMsg s m
  | Event.socketClose sock => handleClose s sock
  | Event.graceExpire cid u => handleGrace s cid u
  | Event.tickExpire cid => handleTick s cid
  | Event.backstopFire cid => handleBackstop s cid
  | Event.startResolve cid ok => handleStartResolve s cid ok
  | Event.endResolve cid ok => handleEndResolve s cid ok
  | Event.cleanupFire cid => handleCleanup s cid
  | Event.inactivityFire cid => handleInactivity s cid

/-- Run a sequence of events, collecting all outputs. -/
def runStep (s : SysState) : List Event → SysState × List Output
  | [] => (s, [])
  | e :: rest =>
    let r := step s e
    let r2 := runStep r.1 rest
    (r2.1, r.2 ++ r2.2)

def runState (s : SysState) (es : List Event) : SysState := (runStep s es).1

def runOuts (s : SysState) (es : List Event) : List Output := (runStep s es).2

/-- All states visited while running `es` from `s`, the start state included. -/
def runStates (s : SysState) : List Event → List SysState
  | [] => [s]
  | e :: rest => s :: runStates (step s e).1 rest

/-- Count of backend `endChallenge` mutations for a given cid. -/
def countBackendEnd (outs : List Output) (cid : String) : Nat :=
  outs.countP (fun o => match o with
    | Output.backendEnd c _ => decide (c = cid)
    | _ => false)

/-- Count of backend `startChallenge` mutations for a given cid. -/
def countBackendStart (outs : List Output) (cid : String) : Nat :=
  outs.countP (fun o => match o with
    | Output.backendStart c => decide (c = cid)
    | _ => false)

/-! ### Predicates and helpers used by the claims -/

/-- Set the `challengeEnded` flag on the lobby registered at `cid`, if any. -/
def withEnded (s : SysState) (cid : String) : SysState :=
  match aget s.lobbies cid with
  | none => s
  | some l => setLobby s cid { l with challengeEnded := true }

/-- Well-formedness of one lobby record: unique usernames per map and no
username simultaneously active and disconnected-pending. -/
def LobbyWF (l : Lobby) : Prop :=
  (keysOf l.players).Nodup ∧ (keysOf l.disconnectedPlayers).Nodup ∧
    (keysOf l.completedPlayers).Nodup ∧
    ∀ u, ¬(u ∈ keysOf l.players ∧ u ∈ keysOf l.disconnectedPlayers)

/-- Well-formedness of the whole registry. -/
def SysWF (s : SysState) : Prop :=
  (keysOf s.lobbies).Nodup ∧ ∀ e ∈ s.lobbies, LobbyWF e.2

/-- Username/score projection of a ranking entry. -/
def pairOfEntry (e : ScoreEntry) : String × Nat := (e.username, e.score)

/-- Username/score projection of a pre-ranking element. -/
def pairOfPre (p : PrePlayer) : String × Nat := (p.username, p.score)

/-- The lobby registered at `cid` (defaulting to a fresh one), for stating
concrete facts about run results. -/
def lobbyAt (s : SysState) (cid : String) : Lobby :=
  (aget s.lobbies cid).getD freshLobby

/-- The active-player record of `u` in the lobby at `cid` (defaulting to a
fresh record on socket 0). -/
def playerAt (s : SysState) (cid u : String) : Player :=
  (aget (lobbyAt s cid).players u).getD (freshPlayer 0)

/-- The disconnected-pending entry of `u` in the lobby at `cid`. -/
def discAt (s : SysState) (cid u : String) : DiscEntry :=
  (aget (lobbyAt s cid).disconnectedPlayers u).getD { playerData := freshPlayer 0 }

/-! ### Concrete traces used for counterexamples and witnesses -/

/-- A message with no numeric payload and a positive validation oracle. -/
def plainMsg (sock : Nat) (t : MsgType) (cid u : String) : Msg :=
  { sock := sock, type := t, cid := cid, username := u,
    testsPassed := none, submittedResults := none, joinOk := true }

/-- A `codeSubmitted` message carrying `testsPassed` and `submittedResults`. -/
def submitMsg (sock : Nat) (cid u : String) (tp sr : Nat) : Msg :=
  { sock := sock, type := MsgType.codeSubmitted, cid := cid, username := u,
    testsPassed := some tp, submittedResults := some sr, joinOk := true }

/-- alice (socket 1) and bob (socket 2) join lobby "abc", both toggle
ready, the backend start call resolves: the challenge is IN_PROGRESS. -/
def esStart : List Event := [
  Event.msg (plainMsg 1 MsgType.join "abc" "alice"),
  Event.msg (plainMsg 2 MsgType.join "abc" "bob"),
  Event.msg (plainMsg 1 MsgType.ready "abc" "alice"),
  Event.msg (plainMsg 2 MsgType.ready "abc" "bob"),
  Event.startResolve "abc" true]

/-- ... then alice submits a full pass and completes early via
`endChallengeForUser`: she moves to the completed set, bob stays active. -/
def esComplete : List Event := esStart ++ [
  Event.msg (submitMsg 1 "abc" "alice" 12 100),
  Event.msg (plainMsg 1 MsgType.endChallengeForUser "abc" "alice")]

/-- ... and afterwards alice sends one more message (`codeRunning`),
which re-creates an active record for her. -/
def esOverlap : List Event := esComplete ++ [
  Event.msg (plainMsg 1 MsgType.codeRunning "abc" "alice")]

/-- ... then alice's socket closes: her grace window opens while she is
still in the completed set. -/
def esPreRank : List Event := esOverlap ++ [Event.socketClose 1]

/-- ... and bob requests an explicit end while alice is grace-pending. -/
def esGraceRank : List Event := esPreRank ++ [
  Event.msg (plainMsg 2 MsgType.endChallenge "abc" "bob")]

/-- alice's rejoin attempt, on a fresh socket, after the lobby ended. -/
def rejoinMsg : Msg :=
  { sock := 3, type := MsgType.join, cid := "abc", username := "alice",
    testsPassed := none, submittedResults := none, joinOk := true }

/-- Two players start lobby "xyz", then both sockets close; both sit in
the disconnect-grace window of an IN_PROGRESS lobby. -/
def esBothGone : List Event := [
  Event.msg (plainMsg 1 MsgType.join "xyz" "alice"),
  Event.msg (plainMsg 2 MsgType.join "xyz" "bob"),
  Event.msg (plainMsg 1 MsgType.ready "xyz" "alice"),
  Event.msg (plainMsg 2 MsgType.ready "xyz" "bob"),
  Event.startResolve "xyz" true,
  Event.socketClose 1,
  Event.socketClose 2]

/-- The esBothGone state after alice's grace expiry: bob is the sole
remaining (grace-pending) participant of the IN_PROGRESS lobby "xyz". -/
def sBothGoneAfter : SysState :=
  (step (runState initState esBothGone) (Event.graceExpire "xyz" "alice")).1

/-- Lobby "c8": bob submits a full pass, then the whole challenge is
ended explicitly; bob still has `submittedTestsPassed = 12`. -/
def esSilent : List Event := [
  Event.msg (plainMsg 1 MsgType.join "c8" "alice"),
  Event.msg (plainMsg 2 MsgType.join "c8" "bob"),
  Event.msg (plainMsg 1 MsgType.ready "c8" "alice"),
  Event.msg (plainMsg 2 MsgType.ready "c8" "bob"),
  Event.startResolve "c8" true,
  Event.msg (submitMsg 2 "c8" "bob" 12 100),
  Event.msg (plainMsg 2 MsgType.endChallenge "c8" "bob")]

/-- Redundant finalize triggers after an explicit end request: a late
expiry tick, the backstop timeout, and a second explicit request. -/
def esEndTriggers : List Event := [
  Event.msg (plainMsg 2 MsgType.endChallenge "abc" "bob"),
  Event.tickExpire "abc",
  Event.backstopFire "abc",
  Event.msg (plainMsg 1 MsgType.endChallenge "abc" "alice")]

/-- alice alone joins lobby "abc" (start state for the ready-race trace,
so the lobby exists in every visited state). -/
def esFirstJoin : List Event := [Event.msg (plainMsg 1 MsgType.join "abc" "alice")]

/-- Extra ready toggles racing the all-ready condition: alice toggles off
and on again after the start was already triggered. -/
def esReadyRaceTail : List Event := [
  Event.msg (plainMsg 2 MsgType.join "abc" "bob"),
  Event.msg (plainMsg 1 MsgType.ready "abc" "alice"),
  Event.msg (plainMsg 2 MsgType.ready "abc" "bob"),
  Event.msg (plainMsg 1 MsgType.ready "abc" "alice"),
  Event.msg (plainMsg 1 MsgType.ready "abc" "alice")]

/-- A full-pass snapshot with the given socket and score. -/
def doneSnap (sock score : Nat) : Player :=
  { ready := true
    socket := sock
    running := false
    testsPassed := 12
    submitted := true
    submittedResults := score
    submittedTestsPassed := 12
    latestScore := score }

/-- A finalization-time lobby with a score tie between an active and a
completed participant, exercising stability of the ranking sort. -/
def demoLobbyC2 : Lobby :=
  { freshLobby with
    players := [("ann", { freshPlayer 1 with submittedResults := 50, latestScore := 50 }),
                ("ben", { freshPlayer 2 with submittedResults := 80, latestScore := 80 })]
    completedPlayers := [("cat", { snapshot := doneSnap 3 80, finalScore := 80 }),
                         ("dan", { snapshot := doneSnap 4 100, finalScore := 100 })]
    status := Status.IN_PROGRESS }

/-! ### Lemmas about the Map model -/

theorem keysOf_nil {V : Type} : keysOf ([] : List (String × V)) = [] := rfl

theorem keysOf_cons {V : Type} (e : String × V) (t : List (String × V)) :
    keysOf (e :: t) = e.1 :: keysOf t := rfl

theorem aget_aset_self {V : Type} (l : List (String × V)) (k : String) (v : V) :
    aget (aset l k v) k = some v := by
  induction l with
  | nil => simp [aset, aget]
  | cons e t ih =>
    by_cases h : e.1 = k
    · simp [aset, aget, h]
    · simp [aset, aget, h, ih]

theorem aget_aset_ne {V : Type} (l : List (String × V)) (k k0 : String) (v : V)
    (h : k0 ≠ k) : aget (aset l k v) k0 = aget l k0 := by
  have hks : ¬(k = k0) := fun hh => h hh.symm
  induction l with
  | nil => simp [aset, aget, hks]
  | cons e t ih =>
    by_cases he : e.1 = k
    · simp [aset, aget, he, hks]
    · simp [aset, aget, he, ih]

theorem aget_adel_ne {V : Type} (l : List (String × V)) (k k0 : String)
    (h : k0 ≠ k) : aget (adel l k) k0 = aget l k0 := by
  have hks : ¬(k = k0) := fun hh => h hh.symm
  induction l with
  | nil => simp [adel]
  | cons e t ih =>
    by_cases he : e.1 = k
    · simp [adel, aget, he, hks]
    · simp [adel, aget, he, ih]

theorem aget_eq_none_iff {V : Type} (l : List (String × V)) (k : String) :
    aget l k = none ↔ k ∉ keysOf l := by
  induction l with
  | nil => simp [aget, keysOf_nil]
  | cons e t ih =>
    by_cases he : e.1 = k
    · simp [aget, keysOf_cons, he]
    · have hks : ¬(k = e.1) := fun hh => he hh.symm
      simp [aget, keysOf_cons, he, ih, hks]

theorem mem_keysOf_of_aget {V : Type} {l : List (String × V)} {k : String} {v : V}
    (h : aget l k = some v) : k ∈ keysOf l := by
  by_contra hn
  rw [← aget_eq_none_iff] at hn
  rw [h] at hn
  exact Option.noConfusion hn

theorem aget_pair_mem {V : Type} {l : List (String × V)} {k : String} {v : V}
    (h : aget l k = some v) : (k, v) ∈ l := by
  induction l with
  | nil => simp [aget] at h
  | cons e t ih =>
    by_cases he : e.1 = k
    · simp [aget, he] at h
      have hev : e = (k, v) := by
        calc e = (e.1, e.2) := rfl
          _ = (k, v) := by rw [he, h]
      rw [← hev]
      exact List.mem_cons_self e t
    · simp [aget, he] at h
      exact List.mem_cons_of_mem e (ih h)

theorem mem_keysOf_iff {V : Type} (l : List (String × V)) (k : String) :
    k ∈ keysOf l ↔ ∃ v, (k, v) ∈ l := by
  induction l with
  | nil => simp [keysOf_nil]
  | cons e t ih =>
    constructor
    · intro hk
      rcases List.mem_cons.mp (by simpa [keysOf_cons] using hk) with h1 | h2
      · exact ⟨e.2, by simp [h1]⟩
      · rcases ih.mp h2 with ⟨v, hv⟩
        exact ⟨v, List.mem_cons_of_mem e hv⟩
    · rintro ⟨v, hv⟩
      rcases List.mem_cons.mp hv with h1 | h2
      · simp [keysOf_cons, ← h1]
      · simp [keysOf_cons]
        right
        exact ih.mpr ⟨v, h2⟩

theorem aget_of_pair_mem {V : Type} {l : List (String × V)} {k : String} {v : V}
    (h : (k, v) ∈ l) (hn : (keysOf l).Nodup) : aget l k = some v := by
  induction l with
  | nil => simp at h
  | cons e t ih =>
    have hcons := List.nodup_cons.mp (by simpa [keysOf_cons] using hn)
    rcases List.mem_cons.mp h with h1 | h2
    · simp [aget, ← h1]
    · have hk : k ∈ keysOf t := (mem_keysOf_iff t k).mpr ⟨v, h2⟩
      have he : e.1 ≠ k := fun hh => hcons.1 (hh ▸ hk)
      simp [aget, he, ih h2 hcons.2]

theorem keysOf_aset {V : Type} (l : List (String × V)) (k : String) (v : V) :
    keysOf (aset l k v) = if k ∈ keysOf l then keysOf l else keysOf l ++ [k] := by
  induction l with
  | nil => simp [aset, keysOf_nil, keysOf_cons]
  | cons e t ih =>
    by_cases he : e.1 = k
    · simp [aset, keysOf_cons, he]
    · have hks : ¬(k = e.1) := fun hh => he hh.symm
      by_cases hk : k ∈ keysOf t
      · simp [aset, keysOf_cons, he, hks, hk, ih]
      · simp [aset, keysOf_cons, he, hks, hk, ih]

theorem mem_keysOf_aset {V : Type} (l : List (String × V)) (k k0 : String) (v : V) :
    k0 ∈ keysOf (aset l k v) ↔ k0 ∈ keysOf l ∨ k0 = k := by
  rw [keysOf_aset]
  by_cases hk : k ∈ keysOf l
  · simp [hk]
    intro hh
    rw [hh]
    exact hk
  · simp [hk]

theorem nodup_keysOf_aset {V : Type} (l : List (String × V)) (k : String) (v : V)
    (h : (keysOf l).Nodup) : (keysOf (aset l k v)).Nodup := by
  rw [keysOf_aset]
  by_cases hk : k ∈ keysOf l
  · simpa [hk]
  · simp [hk, List.nodup_append, h]

theorem adel_sublist {V : Type} (l : List (String × V)) (k : String) :
    List.Sublist (adel l k) l := by
  induction l with
  | nil => simp [adel]
  | cons e t ih =>
    by_cases he : e.1 = k
    · simp [adel, he]
    · simp only [adel, he, if_neg he]
      exact List.Sublist.cons₂ e ih

theorem keysOf_adel_sublist {V : Type} (l : List (String × V)) (k : String) :
    List.Sublist (keysOf (adel l k)) (keysOf l) :=
  List.Sublist.map Prod.fst (adel_sublist l k)

theorem nodup_keysOf_adel {V : Type} (l : List (String × V)) (k : String)
    (h : (keysOf l).Nodup) : (keysOf (adel l k)).Nodup :=
  (keysOf_adel_sublist l k).nodup h

theorem mem_keysOf_adel {V : Type} {l : List (String × V)} {k k0 : String}
    (h : k0 ∈ keysOf (adel l k)) : k0 ∈ keysOf l :=
  (keysOf_adel_sublist l k).subset h

theorem not_mem_keysOf_adel_self {V : Type} (l : List (String × V)) (k : String)
    (h : (keysOf l).Nodup) : k ∉ keysOf (adel l k) := by
  induction l with
  | nil => simp [adel, keysOf_nil]
  | cons e t ih =>
    have hcons := List.nodup_cons.mp (by simpa [keysOf_cons] using h)
    by_cases he : e.1 = k
    · simp [adel, he]
      intro hk
      exact hcons.1 (he ▸ hk)
    · simp [adel, keysOf_cons, he]
      constructor
      · intro hh
        exact he hh.symm
      · exact ih hcons.2

theorem aget_adel_self {V : Type} (l : List (String × V)) (k : String)
    (h : (keysOf l).Nodup) : aget (adel l k) k = none := by
  rw [aget_eq_none_iff]
  exact not_mem_keysOf_adel_self l k h

theorem aset_eq_of_aget {V : Type} {l : List (String × V)} {k : String} {v : V}
    (h : aget l k = some v) : aset l k v = l := by
  induction l with
  | nil => simp [aget] at h
  | cons e t ih =>
    by_cases he : e.1 = k
    · simp [aget, he] at h
      simp [aset, he]
      calc (k, v) = (e.1, e.2) := by rw [he, h]
        _ = e := rfl
    · simp [aget, he] at h
      simp [aset, he, ih h]

theorem pair_mem_aset {V : Type} {l : List (String × V)} {k : String} {v : V} {x : String × V}
    (h : x ∈ aset l k v) : x ∈ l ∨ x = (k, v) := by
  induction l with
  | nil => simpa [aset] using h
  | cons e t ih =>
    by_cases he : e.1 = k
    · simp [aset, he] at h
      rcases h with h1 | h2
      · right
        exact h1
      · left
        exact List.mem_cons_of_mem e h2
    · simp [aset, he] at h
      rcases h with h1 | h2
      · left
        simp [h1]
      · rcases ih h2 with h3 | h4
        · left
          exact List.mem_cons_of_mem e h3
        · right
          exact h4

theorem pair_mem_adel {V : Type} {l : List (String × V)} {k : String} {x : String × V}
    (h : x ∈ adel l k) : x ∈ l :=
  (adel_sublist l k).subset h

theorem player_socket_eta (p : Player) : { p with socket := p.socket } = p := rfl

/-! ### Lemmas about the ranking computation -/

theorem jsOr_zero (a : Nat) : jsOr a 0 = a := by
  by_cases h : a = 0 <;> simp [jsOr, h]

theorem jsOr_self (a : Nat) : jsOr a a = a := by
  by_cases h : a = 0 <;> simp [jsOr, h]

theorem length_insertDesc (x : PrePlayer) (l : List PrePlayer) :
    (insertDesc x l).length = l.length + 1 := by
  induction l with
  | nil => simp [insertDesc]
  | cons y ys ih =>
    by_cases h : y.score ≤ x.score
    · simp [insertDesc, h]
    · simp [insertDesc, h, ih]

theorem length_sortDesc (l : List PrePlayer) : (sortDesc l).length = l.length := by
  induction l with
  | nil => rfl
  | cons x xs ih => simp [sortDesc, length_insertDesc, ih]

theorem mem_insertDesc (x a : PrePlayer) (l : List PrePlayer) :
    a ∈ insertDesc x l ↔ a = x ∨ a ∈ l := by
  induction l with
  | nil => simp [insertDesc]
  | cons y ys ih =>
    by_cases h : y.score ≤ x.score
    · simp [insertDesc, h]
    · simp [insertDesc, h, ih]
      tauto

theorem mem_sortDesc (a : PrePlayer) (l : List PrePlayer) :
    a ∈ sortDesc l ↔ a ∈ l := by
  induction l with
  | nil => simp [sortDesc]
  | cons x xs ih =>
    simp [sortDesc, mem_insertDesc, ih]

theorem pairwise_insertDesc (x : PrePlayer) (l : List PrePlayer)
    (h : List.Pairwise (fun a b => b.score ≤ a.score) l) :
    List.Pairwise (fun a b => b.score ≤ a.score) (insertDesc x l) := by
  induction l with
  | nil => simp [insertDesc]
  | cons y ys ih =>
    rcases List.pairwise_cons.mp h with ⟨hy, hys⟩
    by_cases hc : y.score ≤ x.score
    · simp only [insertDesc, if_pos hc]
      refine List.pairwise_cons.mpr ⟨?_, h⟩
      intro b hb
      rcases List.mem_cons.mp hb with h1 | h2
      · rw [h1]
        exact hc
      · exact le_trans (hy b h2) hc
    · simp only [insertDesc, if_neg hc]
      refine List.pairwise_cons.mpr ⟨?_, ih hys⟩
      intro b hb
      rcases (mem_insertDesc x b ys).mp hb with h1 | h2
      · rw [h1]
        exact le_of_not_le hc
      · exact hy b h2

theorem sortDesc_pairwise (l : List PrePlayer) :
    List.Pairwise (fun a b => b.score ≤ a.score) (sortDesc l) := by
  induction l with
  | nil => simp [sortDesc]
  | cons x xs ih => exact pairwise_insertDesc x (sortDesc xs) ih

theorem filter_insertDesc (x : PrePlayer) (l : List PrePlayer) (sc : Nat) :
    (insertDesc x l).filter (fun e => decide (e.score = sc))
      = if x.score = sc then x :: l.filter (fun e => decide (e.score = sc))
        else l.filter (fun e => decide (e.score = sc)) := by
  induction l with
  | nil =>
    by_cases h : x.score = sc <;> simp [insertDesc, h]
  | cons y ys ih =>
    by_cases hc : y.score ≤ x.score
    · simp only [insertDesc, if_pos hc, List.filter_cons]
      by_cases hx : x.score = sc
      · simp [hx]
      · simp [hx]
    · simp only [insertDesc, if_neg hc, List.filter_cons]
      by_cases hx : x.score = sc
      · have hy : ¬(y.score = sc) := by
          intro hh
          exact hc (le_of_eq (by rw [hh, hx]))
        simp [hx, hy, ih]
      · by_cases hy : y.score = sc
        · simp [hx, hy, ih]
        · simp [hx, hy, ih]

theorem filter_sortDesc (l : List PrePlayer) (sc : Nat) :
    (sortDesc l).filter (fun e => decide (e.score = sc))
      = l.filter (fun e => decide (e.score = sc)) := by
  induction l with
  | nil => simp [sortDesc]
  | cons x xs ih =>
    simp only [sortDesc, filter_insertDesc, List.filter_cons]
    by_cases hx : x.score = sc
    · simp [hx, ih]
    · simp [hx, ih]

theorem assignRanks_length (L : List PrePlayer) :
    ∀ i, (assignRanks i L).length = L.length := by
  induction L with
  | nil => intro i; rfl
  | cons p ps ih =>
    intro i
    simp [assignRanks, ih]

theorem assignRanks_map_pair (L : List PrePlayer) :
    ∀ i, (assignRanks i L).map pairOfEntry = L.map pairOfPre := by
  induction L with
  | nil => intro i; rfl
  | cons p ps ih =>
    intro i
    simp [assignRanks, pairOfEntry, pairOfPre, ih]

theorem mem_assignRanks {L : List PrePlayer} {b : ScoreEntry} :
    ∀ {i : Nat}, b ∈ assignRanks i L → ∃ q ∈ L, b.username = q.username ∧ b.score = q.score := by
  induction L with
  | nil => intro i hb; simp [assignRanks] at hb
  | cons p ps ih =>
    intro i hb
    rcases List.mem_cons.mp hb with h1 | h2
    · exact ⟨p, List.mem_cons_self p ps, by rw [h1], by rw [h1]⟩
    · rcases ih h2 with ⟨q, hq, h3, h4⟩
      exact ⟨q, List.mem_cons_of_mem p hq, h3, h4⟩

theorem assignRanks_pairwise_score (L : List PrePlayer)
    (h : List.Pairwise (fun a b => b.score ≤ a.score) L) :
    ∀ i, List.Pairwise (fun a b : ScoreEntry => b.score ≤ a.score) (assignRanks i L) := by
  induction L with
  | nil => intro i; simp [assignRanks]
  | cons p ps ih =>
    intro i
    rcases List.pairwise_cons.mp h with ⟨hp, hps⟩
    refine List.pairwise_cons.mpr ⟨?_, ih hps (i + 1)⟩
    intro b hb
    rcases mem_assignRanks hb with ⟨q, hq, _, hbs⟩
    show b.score ≤ p.score
    rw [hbs]
    exact hp q hq

theorem assignRanks_get (L : List PrePlayer) :
    ∀ (i j : Nat) (h : j < (assignRanks i L).length),
      ((assignRanks i L)[j]).rank = i + j + 1 := by
  induction L with
  | nil =>
    intro i j h
    simp [assignRanks] at h
  | cons p ps ih =>
    intro i j h
    cases j with
    | zero => simp [assignRanks]
    | succ j0 =>
      have h0 : j0 < (assignRanks (i + 1) ps).length := by
        have hx := h
        simp [assignRanks] at hx
        omega
      have hr := ih (i + 1) j0 h0
      simp only [assignRanks, List.getElem_cons_succ]
      rw [hr]
      omega

theorem filter_pair_comm (L : List PrePlayer) (sc : Nat) :
    (L.map pairOfPre).filter (fun q => decide (q.2 = sc))
      = (L.filter (fun e => decide (e.score = sc))).map pairOfPre := by
  induction L with
  | nil => rfl
  | cons x xs ih =>
    by_cases hx : x.score = sc
    · simp [pairOfPre, List.filter_cons, hx, ih]
    · simp [pairOfPre, List.filter_cons, hx, ih]

/-- Claim C2: at finalization the ranking is the stable descending sort by
score of the combined list — active participants (scored by
`submittedResults`, default 0, in table iteration order) followed by
completed participants (scored by `finalScore`) — ties keeping the
concatenation order, with rank equal to the 1-based sorted position.
(The `finalScore = snapshot.submittedResults` hypothesis is exactly how
`endChallengeForUser` builds every completed snapshot.) -/
theorem finalRanking_stable_desc (l : Lobby)
    (hc : ∀ e ∈ l.completedPlayers, e.2.finalScore = e.2.snapshot.submittedResults) :
    (finalScoresOf l).length = (specAllPlayersOf l).length ∧
    List.Pairwise (fun a b : ScoreEntry => b.score ≤ a.score) (finalScoresOf l) ∧
    (∀ sc : Nat,
      ((finalScoresOf l).map pairOfEntry).filter (fun q => decide (q.2 = sc))
        = ((specAllPlayersOf l).map pairOfPre).filter (fun q => decide (q.2 = sc))) ∧
    (∀ j : Nat, j < (finalScoresOf l).length →
      ∀ h : j < (finalScoresOf l).length, ((finalScoresOf l).get ⟨j, h⟩).rank = j + 1) := by
  have hA : allPlayersOf l = specAllPlayersOf l := by
    unfold allPlayersOf specAllPlayersOf
    congr 1
    · apply List.map_congr_left
      intro e he
      simp [jsOr_zero]
    · apply List.map_congr_left
      intro e he
      have hf := hc e he
      simp [hf, jsOr_self, jsOr_zero]
  refine ⟨?_, ?_, ?_, ?_⟩
  · simp only [finalScoresOf]
    rw [assignRanks_length, length_sortDesc, hA]
  · exact assignRanks_pairwise_score (sortDesc (allPlayersOf l)) (sortDesc_pairwise _) 0
  · intro sc
    simp only [finalScoresOf]
    rw [assignRanks_map_pair, filter_pair_comm, filter_pair_comm, filter_sortDesc, hA]
  · intro j hj h
    simp only [finalScoresOf] at h ⊢
    rw [List.get_eq_getElem]
    have hr := assignRanks_get (sortDesc (allPlayersOf l)) 0 j h
    rw [hr]
    omega

/-- Witness for C2 at a concrete tie-carrying lobby. -/
theorem finalRanking_stable_desc_applied :
    (finalScoresOf demoLobbyC2).length = (specAllPlayersOf demoLobbyC2).length ∧
    List.Pairwise (fun a b : ScoreEntry => b.score ≤ a.score) (finalScoresOf demoLobbyC2) ∧
    ((finalScoresOf demoLobbyC2).map pairOfEntry).filter (fun q => decide (q.2 = 80))
      = ((specAllPlayersOf demoLobbyC2).map pairOfPre).filter (fun q => decide (q.2 = 80)) ∧
    ((finalScoresOf demoLobbyC2).get ⟨0, by decide⟩).rank = 0 + 1 := by
  have h := finalRanking_stable_desc demoLobbyC2 (by decide)
  exact ⟨h.1, h.2.1, h.2.2.1 80, h.2.2.2 0 (by decide) (by decide)⟩

/-! ### Claim C9 (amended) and C10 (amended) -/

/-- Claim C9 (amended): the final ranking is built only from the active
and completed maps, so a username that is grace-pending and not also
listed active or completed receives no rank and no score entry; the
backend mutation carries exactly that ranking. -/
theorem ranking_sources_active_completed (l : Lobby) (u : String)
    (hd : u ∈ keysOf l.disconnectedPlayers)
    (hnp : u ∉ keysOf l.players) (hnc : u ∉ keysOf l.completedPlayers) :
    (∀ e ∈ finalScoresOf l,
      e.username ∈ keysOf l.players ∨ e.username ∈ keysOf l.completedPlayers) ∧
    (∀ e ∈ finalScoresOf l, e.username ≠ u) ∧
    (∀ s cid r, aget s.lobbies cid = some l → l.challengeEnded = false →
      Output.backendEnd cid (finalScoresOf l) ∈ (endChallenge s cid r).2) := by
  have hsrc : ∀ e ∈ finalScoresOf l,
      e.username ∈ keysOf l.players ∨ e.username ∈ keysOf l.completedPlayers := by
    intro e he
    rcases mem_assignRanks he with ⟨q, hq, hqu, _⟩
    have hq2 : q ∈ allPlayersOf l := (mem_sortDesc q _).mp hq
    rcases List.mem_append.mp hq2 with h1 | h2
    · left
      rcases List.mem_map.mp h1 with ⟨pe, hpe, hpq⟩
      rw [hqu, ← hpq]
      exact List.mem_map.mpr ⟨pe, hpe, rfl⟩
    · right
      rcases List.mem_map.mp h2 with ⟨ce, hce, hcq⟩
      rw [hqu, ← hcq]
      exact List.mem_map.mpr ⟨ce, hce, rfl⟩
  refine ⟨hsrc, ?_, ?_⟩
  · intro e he heq
    rcases hsrc e he with h1 | h2
    · exact hnp (heq ▸ h1)
    · exact hnc (heq ▸ h2)
  · intro s cid r hs hne
    simp only [endChallenge, hs, hne]
    simp

/-- Witness for C9 (amended) at the esPreRank run state: alice is listed
both completed and grace-pending there, so the sole-pending participant is
a ghost user "carol" added to the pending map; no ranking entry names
carol, and the ranking is the one handed to the backend mutation. -/
theorem ranking_sources_active_completed_applied :
    ((finalScoresOf { lobbyAt (runState initState esPreRank) "abc" with
          disconnectedPlayers := [("carol", { playerData := freshPlayer 9 })] }).all
        (fun e => decide (e.username ≠ "carol")) = true) ∧
    Output.backendEnd "abc"
        (finalScoresOf { lobbyAt (runState initState esPreRank) "abc" with
          disconnectedPlayers := [("carol", { playerData := freshPlayer 9 })] })
      ∈ (endChallenge (setLobby (runState initState esPreRank) "abc"
          { lobbyAt (runState initState esPreRank) "abc" with
            disconnectedPlayers := [("carol", { playerData := freshPlayer 9 })] })
          "abc" "Ended by bob").2 := by
  have h := ranking_sources_active_completed
    { lobbyAt (runState initState esPreRank) "abc" with
        disconnectedPlayers := [("carol", { playerData := freshPlayer 9 })] }
    "carol" (by decide) (by decide) (by decide)
  constructor
  · exact List.all_eq_true.mpr (fun e he => by simpa using h.2.1 e he)
  · exact h.2.2 (setLobby (runState initState esPreRank) "abc"
      { lobbyAt (runState initState esPreRank) "abc" with
        disconnectedPlayers := [("carol", { playerData := freshPlayer 9 })] })
      "abc" "Ended by bob" (by decide) (by decide)

/-- Claim C10 (amended): a broadcast delivers exactly to the open,
non-excluded sockets of entries of the active-players map; any socket not
bound by an active entry — a completed participant not re-added, in
particular — receives nothing, its own open connection notwithstanding. -/
theorem broadcast_only_active_sockets :
    (∀ (closed : List Nat) (l : Lobby) (ev : OutEvent) (excl : Option Nat) (o : Output),
      o ∈ broadcastSends closed l ev excl ↔
        ∃ e ∈ l.players,
          o = Output.send e.2.socket ev ∧ e.2.socket ∉ closed ∧ excl ≠ some e.2.socket) ∧
    (∀ (closed : List Nat) (l : Lobby) (ev : OutEvent) (excl : Option Nat) (sk : Nat),
      (∀ e ∈ l.players, e.2.socket ≠ sk) →
      ∀ ev2 : OutEvent, Output.send sk ev2 ∉ broadcastSends closed l ev excl) := by
  have hmem : ∀ (closed : List Nat) (l : Lobby) (ev : OutEvent) (excl : Option Nat) (o : Output),
      o ∈ broadcastSends closed l ev excl ↔
        ∃ e ∈ l.players,
          o = Output.send e.2.socket ev ∧ e.2.socket ∉ closed ∧ excl ≠ some e.2.socket := by
    intro closed l ev excl o
    constructor
    · intro ho
      rcases List.mem_filterMap.mp ho with ⟨e, he, hfe⟩
      by_cases hc : e.2.socket ∉ closed ∧ excl ≠ some e.2.socket
      · refine ⟨e, he, ?_, hc.1, hc.2⟩
        rw [if_pos hc] at hfe
        exact (Option.some_inj.mp hfe).symm
      · rw [if_neg hc] at hfe
        exact absurd hfe (Option.noConfusion)
    · rintro ⟨e, he, ho, h1, h2⟩
      refine List.mem_filterMap.mpr ⟨e, he, ?_⟩
      rw [if_pos ⟨h1, h2⟩, ho]
  refine ⟨hmem, ?_⟩
  intro closed l ev excl sk hk ev2 hmem2
  rcases (hmem closed l ev excl (Output.send sk ev2)).mp hmem2 with ⟨e, he, ho, _, _⟩
  have : sk = e.2.socket := by
    injection ho with h1 h2
  exact hk e he this.symm

/-- Witness for C10 (amended) at the esComplete run state: alice's socket
1 is open but she is only in the completed set, so no broadcast reaches
socket 1. -/
theorem broadcast_only_active_sockets_applied :
    Output.send 1 OutEvent.challengeEndedConfirmed ∉
      broadcastSends (runState initState esComplete).closedSockets
        (lobbyAt (runState initState esComplete) "abc") OutEvent.challengeEndedConfirmed none := by
  exact broadcast_only_active_sockets.2
    (runState initState esComplete).closedSockets
    (lobbyAt (runState initState esComplete) "abc")
    OutEvent.challengeEndedConfirmed none 1 (by decide) OutEvent.challengeEndedConfirmed

/-! ### Counterexamples, each computed by running the step semantics from
the empty initial state -/

/-- Counterexample to C5 as stated: after the esOverlap run, alice is in
the active map and the completed map of lobby "abc" at the same time (a
completed participant who sends a further message is re-added to the
active map by the pre-dispatch tracking, server.js lines 86-96). -/
theorem completed_active_overlap_cex :
    (aget (runState initState esOverlap).lobbies "abc").isSome = true ∧
    "alice" ∈ keysOf (lobbyAt (runState initState esOverlap) "abc").players ∧
    "alice" ∈ keysOf (lobbyAt (runState initState esOverlap) "abc").completedPlayers := by
  decide

/-- Counterexample to C10 as stated: after completing, alice sends
`codeRunning`; being re-added to the active map, her open socket 1
receives the resulting broadcast — a completed participant does receive a
subsequent lobby broadcast. -/
theorem completed_receives_broadcast_cex :
    "alice" ∈ keysOf (lobbyAt (runState initState esComplete) "abc").completedPlayers ∧
    "alice" ∉ keysOf (lobbyAt (runState initState esComplete) "abc").players ∧
    1 ∉ (runState initState esComplete).closedSockets ∧
    Output.send 1 OutEvent.playerCodeRunning ∈
      (step (runState initState esComplete)
        (Event.msg (plainMsg 1 MsgType.codeRunning "abc" "alice"))).2 := by
  decide

/-- Counterexample to C9 as stated: at the finalization triggered by bob,
alice is in the disconnect-grace window, yet the final ranking and the
backend scores contain her (through her completed-set entry). -/
theorem grace_pending_ranked_cex :
    "alice" ∈ keysOf (lobbyAt (runState initState esPreRank) "abc").disconnectedPlayers ∧
    (lobbyAt (runState initState esPreRank) "abc").challengeEnded = false ∧
    Output.backendEnd "abc"
        [{ username := "alice", score := 100, rank := 1 },
         { username := "bob", score := 0, rank := 2 }] ∈
      (step (runState initState esPreRank)
        (Event.msg (plainMsg 2 MsgType.endChallenge "abc" "bob"))).2 := by
  decide

/-- Counterexample to C4 as stated: after finalization (esGraceRank ends
lobby "abc"), bob is still in the active map; a `codeRunning` message
still mutates his record (`running` flips to true) — the in-progress
handlers carry no `challengeEnded` guard. -/
theorem postEnd_mutation_cex :
    (lobbyAt (runState initState esGraceRank) "abc").challengeEnded = true ∧
    (aget (lobbyAt (runState initState esGraceRank) "abc").players "bob").isSome = true ∧
    (playerAt (runState initState esGraceRank) "abc" "bob").running = false ∧
    (playerAt
      (step (runState initState esGraceRank)
        (Event.msg (plainMsg 2 MsgType.codeRunning "abc" "bob"))).1
      "abc" "bob").running = true := by
  decide

/-- Counterexample to C3 as stated: alice, grace-pending in the ended
lobby, sends a join message; it is rejected by the ended-lobby guard, so
her grace timer is not cancelled, no `playerReconnected` is broadcast,
and the subsequent expiry still emits the permanent `playerLeft`. -/
theorem reconnect_join_rejected_cex :
    "alice" ∈ keysOf (lobbyAt (runState initState esGraceRank) "abc").disconnectedPlayers ∧
    (step (runState initState esGraceRank) (Event.msg rejoinMsg)).2
      = [Output.backendValidate "abc" "alice", Output.send 3 OutEvent.joinError] ∧
    "alice" ∈ keysOf
      (lobbyAt (step (runState initState esGraceRank) (Event.msg rejoinMsg)).1 "abc").disconnectedPlayers ∧
    Output.send 2 (OutEvent.playerLeft "alice") ∈
      (step (step (runState initState esGraceRank) (Event.msg rejoinMsg)).1
        (Event.graceExpire "abc" "alice")).2 := by
  decide

/-- Counterexample to C7 as stated: alice's grace expiry leaves the
active set empty (it already was), but bob is still grace-pending, so the
IN_PROGRESS lobby is not finalized. -/
theorem grace_expiry_active_empty_cex :
    (lobbyAt (runState initState esBothGone) "xyz").players = [] ∧
    (lobbyAt (runState initState esBothGone) "xyz").status = Status.IN_PROGRESS ∧
    "alice" ∈ keysOf (lobbyAt (runState initState esBothGone) "xyz").disconnectedPlayers ∧
    (lobbyAt (step (runState initState esBothGone) (Event.graceExpire "xyz" "alice")).1
      "xyz").players = [] ∧
    (lobbyAt (step (runState initState esBothGone) (Event.graceExpire "xyz" "alice")).1
      "xyz").status = Status.IN_PROGRESS ∧
    (lobbyAt (step (runState initState esBothGone) (Event.graceExpire "xyz" "alice")).1
      "xyz").challengeEnded = false := by
  decide

/-- Counterexample to C8 as stated: bob, with a full pass recorded, sends
`endChallengeForUser` after the challenge ended; the eligible-path
precondition fails, yet the server sends no reply at all (the else-if
tests `submittedTestsPassed !== 12`) and the state is unchanged. -/
theorem ineligible_end_silent_cex :
    (lobbyAt (runState initState esSilent) "c8").challengeEnded = true ∧
    (playerAt (runState initState esSilent) "c8" "bob").submittedTestsPassed = 12 ∧
    step (runState initState esSilent)
        (Event.msg (plainMsg 2 MsgType.endChallengeForUser "c8" "bob"))
      = (runState initState esSilent, []) := by
  decide

/-! ### Shared helpers about outputs -/

theorem broadcastSends_shape (closed : List Nat) (l : Lobby) (ev : OutEvent)
    (excl : Option Nat) :
    ∀ o ∈ broadcastSends closed l ev excl, ∃ sk, o = Output.send sk ev := by
  intro o ho
  rcases List.mem_filterMap.mp ho with ⟨e, _, hfe⟩
  by_cases hc : e.2.socket ∉ closed ∧ excl ≠ some e.2.socket
  · rw [if_pos hc] at hfe
    exact ⟨e.2.socket, (Option.some_inj.mp hfe).symm⟩
  · rw [if_neg hc] at hfe
    exact absurd hfe (Option.noConfusion)

theorem countBackendEnd_append (a b : List Output) (cid : String) :
    countBackendEnd (a ++ b) cid = countBackendEnd a cid + countBackendEnd b cid :=
  List.countP_append _ _ _

theorem countBackendStart_append (a b : List Output) (cid : String) :
    countBackendStart (a ++ b) cid = countBackendStart a cid + countBackendStart b cid :=
  List.countP_append _ _ _

theorem countBackendEnd_sends (outs : List Output) (cid : String)
    (h : ∀ o ∈ outs, ∃ sk ev, o = Output.send sk ev) : countBackendEnd outs cid = 0 := by
  apply List.countP_eq_zero.mpr
  intro o ho
  rcases h o ho with ⟨sk, ev, rfl⟩
  simp

theorem countBackendStart_sends (outs : List Output) (cid : String)
    (h : ∀ o ∈ outs, ∃ sk ev, o = Output.send sk ev) : countBackendStart outs cid = 0 := by
  apply List.countP_eq_zero.mpr
  intro o ho
  rcases h o ho with ⟨sk, ev, rfl⟩
  simp

theorem countBackendEnd_broadcast (closed : List Nat) (l : Lobby) (ev : OutEvent)
    (excl : Option Nat) (cid : String) :
    countBackendEnd (broadcastSends closed l ev excl) cid = 0 :=
  countBackendEnd_sends _ _ (fun o ho => by
    rcases broadcastSends_shape closed l ev excl o ho with ⟨sk, rfl⟩
    exact ⟨sk, ev, rfl⟩)

theorem countBackendStart_broadcast (closed : List Nat) (l : Lobby) (ev : OutEvent)
    (excl : Option Nat) (cid : String) :
    countBackendStart (broadcastSends closed l ev excl) cid = 0 :=
  countBackendStart_sends _ _ (fun o ho => by
    rcases broadcastSends_shape closed l ev excl o ho with ⟨sk, rfl⟩
    exact ⟨sk, ev, rfl⟩)

/-! ### Behaviour of the finalization prefix -/

theorem endChallenge_none {s : SysState} {cid : String} (r : String)
    (hl : aget s.lobbies cid = none) : endChallenge s cid r = (s, []) := by
  simp only [endChallenge, hl]

theorem endChallenge_ended {s : SysState} {cid : String} {l : Lobby} (r : String)
    (hl : aget s.lobbies cid = some l) (he : l.challengeEnded = true) :
    endChallenge s cid r = (s, []) := by
  simp only [endChallenge, hl, he, if_pos]

theorem endChallenge_not_ended {s : SysState} {cid : String} {l : Lobby} (r : String)
    (hl : aget s.lobbies cid = some l) (hne : l.challengeEnded = false) :
    endChallenge s cid r
      = (setLobby s cid (endedLobby l),
         broadcastSends s.closedSockets (endedLobby l)
             (OutEvent.challengeEnded r (finalScoresOf l)) none
           ++ [Output.backendEnd cid (finalScoresOf l)]) := by
  simp only [endChallenge, hl, hne]
  simp

/-! ### Claim C7 (amended) -/

/-- Claim C7 (amended): a grace expiry finalizes the lobby, with reason
"All players disconnected", exactly when it leaves BOTH the active set and
the disconnected-pending set empty (the code tests
`players.size + disconnectedPlayers.size === 0`) while IN_PROGRESS and not
yet ended; in particular the expiry of the sole remaining participant ends
the challenge. -/
theorem grace_expiry_total_empty_ends (s : SysState) (cid u : String) (l : Lobby)
    (d : DiscEntry)
    (hl : aget s.lobbies cid = some l)
    (hd : aget l.disconnectedPlayers u = some d)
    (hpe : l.players = [])
    (hde : adel l.disconnectedPlayers u = [])
    (hst : l.status = Status.IN_PROGRESS)
    (hne : l.challengeEnded = false) :
    step s (Event.graceExpire cid u)
      = endChallenge (setLobby s cid { l with disconnectedPlayers := [] }) cid
          "All players disconnected" ∧
    ∃ l2, aget (step s (Event.graceExpire cid u)).1.lobbies cid = some l2 ∧
      l2.status = Status.ENDED ∧ l2.challengeEnded = true ∧
      0 < countBackendEnd (step s (Event.graceExpire cid u)).2 cid := by
  have heq : step s (Event.graceExpire cid u)
      = endChallenge (setLobby s cid { l with disconnectedPlayers := [] }) cid
          "All players disconnected" := by
    simp only [step, handleGrace, hl, hd, hde, hpe, hst, hne]
    simp
  refine ⟨heq, ?_⟩
  rw [heq]
  have hs1 : aget (setLobby s cid { l with disconnectedPlayers := [] }).lobbies cid
      = some { l with disconnectedPlayers := [] } := aget_aset_self _ _ _
  rw [endChallenge_not_ended _ hs1 hne]
  refine ⟨_, aget_aset_self _ _ _, rfl, rfl, ?_⟩
  rw [countBackendEnd_append, countBackendEnd_broadcast]
  simp [countBackendEnd]

/-- Witness for C7 (amended): bob is the sole remaining participant of
IN_PROGRESS lobby "xyz"; his grace expiry ends the challenge. -/
theorem grace_expiry_total_empty_ends_applied :
    ∃ l2, aget (step sBothGoneAfter (Event.graceExpire "xyz" "bob")).1.lobbies "xyz" = some l2 ∧
      l2.status = Status.ENDED ∧ l2.challengeEnded = true ∧
      0 < countBackendEnd (step sBothGoneAfter (Event.graceExpire "xyz" "bob")).2 "xyz" :=
  (grace_expiry_total_empty_ends sBothGoneAfter "xyz" "bob"
    (lobbyAt sBothGoneAfter "xyz") (discAt sBothGoneAfter "xyz" "bob")
    (by decide) (by decide) (by decide) (by decide) (by decide) (by decide)).2

/-! ### Reduction lemmas for one message step -/

theorem handleMsg_nonjoin (s : SysState) (m : Msg)
    (hg1 : ¬m.cid = "") (hg2 : ¬m.username = "") (hj : ¬m.type = MsgType.join) :
    handleMsg s m
      = ((dispatch
            (setLobby s m.cid
              (applyTrack s.closedSockets ((aget s.lobbies m.cid).getD freshLobby)
                m.username m.sock).1)
            s.closedSockets m
            (applyTrack s.closedSockets ((aget s.lobbies m.cid).getD freshLobby)
              m.username m.sock).1).1,
         (applyTrack s.closedSockets ((aget s.lobbies m.cid).getD freshLobby)
            m.username m.sock).2
           ++ (dispatch
                (setLobby s m.cid
                  (applyTrack s.closedSockets ((aget s.lobbies m.cid).getD freshLobby)
                    m.username m.sock).1)
                s.closedSockets m
                (applyTrack s.closedSockets ((aget s.lobbies m.cid).getD freshLobby)
                  m.username m.sock).1).2) := by
  simp only [handleMsg, hg1, hg2, hj]
  simp

theorem handleMsg_join_ok (s : SysState) (m : Msg)
    (hg1 : ¬m.cid = "") (hg2 : ¬m.username = "") (hj : m.type = MsgType.join)
    (hok : m.joinOk = true)
    (hne : ((aget s.lobbies m.cid).getD freshLobby).challengeEnded = false) :
    handleMsg s m
      = ((dispatch
            (setLobby s m.cid
              (applyTrack s.closedSockets ((aget s.lobbies m.cid).getD freshLobby)
                m.username m.sock).1)
            s.closedSockets m
            (applyTrack s.closedSockets ((aget s.lobbies m.cid).getD freshLobby)
              m.username m.sock).1).1,
         Output.backendValidate m.cid m.username
           :: ((applyTrack s.closedSockets ((aget s.lobbies m.cid).getD freshLobby)
                m.username m.sock).2
             ++ (dispatch
                  (setLobby s m.cid
                    (applyTrack s.closedSockets ((aget s.lobbies m.cid).getD freshLobby)
                      m.username m.sock).1)
                  s.closedSockets m
                  (applyTrack s.closedSockets ((aget s.lobbies m.cid).getD freshLobby)
                    m.username m.sock).1).2)) := by
  simp only [handleMsg, hg1, hg2, hj, hok, hne]
  simp

theorem applyTrack_reconnect (closed : List Nat) (l : Lobby) (u : String) (sock : Nat)
    (d : DiscEntry) (hd : aget l.disconnectedPlayers u = some d) :
    applyTrack closed l u sock
      = ({ l with
            players := aset l.players u { d.playerData with socket := sock }
            disconnectedPlayers := adel l.disconnectedPlayers u
            inactivityPending := decide (l.status = Status.WAITING) },
          broadcastSends closed
            { l with
              players := aset l.players u { d.playerData with socket := sock }
              disconnectedPlayers := adel l.disconnectedPlayers u }
            (OutEvent.playerReconnected u) (some sock)) := by
  simp only [applyTrack, hd]

theorem applyTrack_known (closed : List Nat) (l : Lobby) (u : String) (sock : Nat)
    (p : Player) (hnd : aget l.disconnectedPlayers u = none)
    (hp : aget l.players u = some p) :
    applyTrack closed l u sock
      = ({ l with
            players := aset l.players u { p with socket := sock }
            inactivityPending := decide (l.status = Status.WAITING) }, []) := by
  simp only [applyTrack, hnd, hp]

theorem applyTrack_fresh (closed : List Nat) (l : Lobby) (u : String) (sock : Nat)
    (hnd : aget l.disconnectedPlayers u = none)
    (hp : aget l.players u = none) :
    applyTrack closed l u sock
      = ({ l with
            players := aset l.players u (freshPlayer sock)
            inactivityPending := decide (l.status = Status.WAITING) }, []) := by
  simp only [applyTrack, hnd, hp]

theorem aset_aset {V : Type} (l : List (String × V)) (k : String) (v w : V) :
    aset (aset l k v) k w = aset l k w := by
  induction l with
  | nil => simp [aset]
  | cons e t ih =>
    by_cases he : e.1 = k
    · simp [aset, he]
    · simp [aset, he, ih]

theorem setLobby_setLobby (s : SysState) (cid : String) (a b : Lobby) :
    setLobby (setLobby s cid a) cid b = setLobby s cid b := by
  simp [setLobby, aset_aset]

theorem withEnded_setLobby (s : SysState) (cid : String) (a : Lobby) :
    withEnded (setLobby s cid a) cid
      = setLobby s cid { a with challengeEnded := true } := by
  simp [withEnded, setLobby, aget_aset_self, aset_aset]

theorem broadcastSends_players_congr (closed : List Nat) {l1 l2 : Lobby}
    (h : l1.players = l2.players) (ev : OutEvent) (excl : Option Nat) :
    broadcastSends closed l1 ev excl = broadcastSends closed l2 ev excl := by
  simp [broadcastSends, h]

/-! ### Claim C8 (amended) -/

/-- Claim C8 (amended): when the eligible-path precondition of
`endChallengeForUser` fails, the handler changes no state, and it replies
`cannotEndYet` with the current `submittedTestsPassed` count exactly when
that count differs from 12 — when the precondition fails for another
reason (status not IN_PROGRESS, or challenge already ended) while the
count IS 12, no reply at all is sent. -/
theorem ineligible_end_reply (s : SysState) (m : Msg) (l : Lobby) (p : Player)
    (hg1 : ¬m.cid = "") (hg2 : ¬m.username = "")
    (htype : m.type = MsgType.endChallengeForUser)
    (hl : aget s.lobbies m.cid = some l)
    (hnd : aget l.disconnectedPlayers m.username = none)
    (hp : aget l.players m.username = some p)
    (hsock : p.socket = m.sock)
    (hpend : l.inactivityPending = decide (l.status = Status.WAITING))
    (hfail : ¬(l.status = Status.IN_PROGRESS ∧ l.challengeEnded = false ∧
        p.submittedTestsPassed = 12)) :
    step s (Event.msg m)
      = (s, if p.submittedTestsPassed = 12 then []
            else [Output.send p.socket (OutEvent.cannotEndYet (jsOr p.submittedTestsPassed 0))]) := by
  have hj : ¬m.type = MsgType.join := by simp [htype]
  have hget : (aget s.lobbies m.cid).getD freshLobby = l := by rw [hl]; rfl
  have hred := handleMsg_nonjoin s m hg1 hg2 hj
  rw [hget, applyTrack_known s.closedSockets l m.username m.sock p hnd hp] at hred
  have hRl : ({ l with
      players := aset l.players m.username { p with socket := m.sock }
      inactivityPending := decide (l.status = Status.WAITING) } : Lobby) = l := by
    rw [← hsock, ← hpend]
    rw [show ({ p with socket := p.socket } : Player) = p from rfl]
    rw [aset_eq_of_aget hp]
  rw [hRl] at hred
  have hs2 : setLobby s m.cid l = s := by
    simp [setLobby, aset_eq_of_aget hl]
  rw [hs2] at hred
  show handleMsg s m = _
  rw [hred]
  simp only [dispatch, htype, hp]
  rw [if_neg (by simpa using hfail)]
  by_cases h12 : p.submittedTestsPassed = 12
  · simp [h12]
  · simp [h12]

/-- Witness for C8 (amended): in the ended lobby "c8", alice (0 of 12
tests) asks to end her participation and receives `cannotEndYet 0`; the
state is untouched. -/
theorem ineligible_end_reply_applied :
    step (runState initState esSilent)
        (Event.msg (plainMsg 1 MsgType.endChallengeForUser "c8" "alice"))
      = (runState initState esSilent,
         if (playerAt (runState initState esSilent) "c8" "alice").submittedTestsPassed = 12
         then []
         else [Output.send (playerAt (runState initState esSilent) "c8" "alice").socket
                (OutEvent.cannotEndYet
                  (jsOr (playerAt (runState initState esSilent) "c8" "alice").submittedTestsPassed 0))]) :=
  ineligible_end_reply (runState initState esSilent)
    (plainMsg 1 MsgType.endChallengeForUser "c8" "alice")
    (lobbyAt (runState initState esSilent) "c8")
    (playerAt (runState initState esSilent) "c8" "alice")
    (by decide) (by decide) (by decide) (by decide) (by decide) (by decide)
    (by decide) (by decide) (by decide)

/-! ### The dispatch never adds disconnected-pending entries -/

theorem endChallenge_disc (s : SysState) (cid r : String) (l : Lobby)
    (hl : aget s.lobbies cid = some l) :
    ∀ l2, aget (endChallenge s cid r).1.lobbies cid = some l2 →
      l2.disconnectedPlayers = l.disconnectedPlayers := by
  intro l2 h2
  by_cases he : l.challengeEnded = true
  · rw [endChallenge_ended r hl he] at h2
    rw [hl] at h2
    cases h2
    rfl
  · have hne : l.challengeEnded = false := by simpa using he
    rw [endChallenge_not_ended r hl hne] at h2
    rw [show (setLobby s cid (endedLobby l)).lobbies = aset s.lobbies cid (endedLobby l)
      from rfl, aget_aset_self] at h2
    cases h2
    rfl

theorem dispatch_disc_preserved (s2 : SysState) (closed : List Nat) (m : Msg) (l : Lobby)
    (hs2 : aget s2.lobbies m.cid = some l) :
    ∀ l2, aget (dispatch s2 closed m l).1.lobbies m.cid = some l2 →
      l2.disconnectedPlayers = l.disconnectedPlayers := by
  have hself : ∀ (x : Lobby) (l2 : Lobby),
      aget (setLobby s2 m.cid x).lobbies m.cid = some l2 → l2 = x := by
    intro x l2 h
    rw [show (setLobby s2 m.cid x).lobbies = aset s2.lobbies m.cid x from rfl,
      aget_aset_self] at h
    exact (Option.some_inj.mp h).symm
  have hid : ∀ l2 : Lobby, aget s2.lobbies m.cid = some l2 → l2 = l := by
    intro l2 h
    rw [hs2] at h
    exact (Option.some_inj.mp h).symm
  intro l2 h2
  cases htype : m.type
  case join =>
    simp only [dispatch, htype] at h2
    rw [hid l2 h2]
  case ready =>
    rcases hp : aget l.players m.username with _ | p <;>
      simp only [dispatch, htype, hp] at h2
    · rw [hid l2 h2]
    · by_cases hw : l.status = Status.WAITING
      · rw [if_pos hw] at h2
        split at h2
        · have hx := hself _ l2 h2
          subst hx
          rfl
        · have hx := hself _ l2 h2
          subst hx
          rfl
      · rw [if_neg hw] at h2
        rw [hid l2 h2]
  case codeRunning =>
    rcases hp : aget l.players m.username with _ | p <;>
      simp only [dispatch, htype, hp] at h2
    · rw [hid l2 h2]
    · have hx := hself _ l2 h2
      subst hx
      rfl
  case codeFinished =>
    rcases hp : aget l.players m.username with _ | p <;>
      simp only [dispatch, htype, hp] at h2
    · rw [hid l2 h2]
    · have hx := hself _ l2 h2
      subst hx
      rfl
  case testResults =>
    rcases hp : aget l.players m.username with _ | p <;>
      rcases hv : m.testsPassed with _ | v <;>
      simp only [dispatch, htype, hp, hv] at h2
    · rw [hid l2 h2]
    · rw [hid l2 h2]
    · rw [hid l2 h2]
    · have hx := hself _ l2 h2
      subst hx
      rfl
  case codeSubmitted =>
    rcases hp : aget l.players m.username with _ | p <;>
      rcases hr : m.submittedResults with _ | r <;>
      rcases hv : m.testsPassed with _ | v <;>
      simp only [dispatch, htype, hp, hr, hv] at h2
    · rw [hid l2 h2]
    · rw [hid l2 h2]
    · rw [hid l2 h2]
    · rw [hid l2 h2]
    · rw [hid l2 h2]
    · rw [hid l2 h2]
    · rw [hid l2 h2]
    · split at h2
      · have hx := hself _ l2 h2
        subst hx
        rfl
      · have hx := hself _ l2 h2
        subst hx
        rfl
  case endChallenge =>
    simp only [dispatch, htype] at h2
    split at h2
    · exact endChallenge_disc s2 m.cid _ l hs2 l2 h2
    · rw [hid l2 h2]
  case endChallengeForUser =>
    rcases hp : aget l.players m.username with _ | p <;>
      simp only [dispatch, htype, hp] at h2
    · rw [hid l2 h2]
    · split at h2
      · split at h2
        · have hd2 := endChallenge_disc (setLobby s2 m.cid
            { l with
              completedPlayers := aset l.completedPlayers m.username
                { snapshot := p, finalScore := jsOr p.submittedResults 0 }
              players := adel l.players m.username }) m.cid "All players completed"
            _ (aget_aset_self _ _ _) l2 h2
          exact hd2
        · have hx := hself _ l2 h2
          subst hx
          rfl
      · split at h2
        · rw [hid l2 h2]
        · rw [hid l2 h2]
  case unknown =>
    simp only [dispatch, htype] at h2
    rw [hid l2 h2]

/-! ### Claim C3 (amended) -/

/-- Claim C3 (amended): any message from a grace-pending username that
reaches the reconnection branch — any non-join message, or a join that
passes validation against a not-yet-ended lobby — cancels the grace timer,
rebinds the connection to the new socket, restores every other field of
the record to its pre-disconnect value, broadcasts `playerReconnected`,
and leaves no pending grace timer whose expiry could emit `playerLeft`
for that disconnect.  (A join rejected by validation or by the
ended-lobby guard never reaches the branch: see the counterexample.) -/
theorem reconnect_restores_pending (s : SysState) (m : Msg) (l : Lobby) (d : DiscEntry)
    (hg1 : ¬m.cid = "") (hg2 : ¬m.username = "")
    (hl : aget s.lobbies m.cid = some l)
    (hnodup : (keysOf l.disconnectedPlayers).Nodup)
    (hd : aget l.disconnectedPlayers m.username = some d)
    (hjoin : m.type = MsgType.join → (m.joinOk = true ∧ l.challengeEnded = false)) :
    (aget (applyTrack s.closedSockets l m.username m.sock).1.players m.username
        = some { d.playerData with socket := m.sock }) ∧
    (aget (applyTrack s.closedSockets l m.username m.sock).1.disconnectedPlayers m.username
        = none) ∧
    ((applyTrack s.closedSockets l m.username m.sock).2
        = broadcastSends s.closedSockets (applyTrack s.closedSockets l m.username m.sock).1
            (OutEvent.playerReconnected m.username) (some m.sock)) ∧
    (∃ rest, (step s (Event.msg m)).2
        = (if m.type = MsgType.join then [Output.backendValidate m.cid m.username] else [])
            ++ (applyTrack s.closedSockets l m.username m.sock).2 ++ rest) ∧
    (∀ l2, aget (step s (Event.msg m)).1.lobbies m.cid = some l2 →
        aget l2.disconnectedPlayers m.username = none) ∧
    (step (step s (Event.msg m)).1 (Event.graceExpire m.cid m.username)
        = ((step s (Event.msg m)).1, [])) := by
  have hget : (aget s.lobbies m.cid).getD freshLobby = l := by rw [hl]; rfl
  have htr := applyTrack_reconnect s.closedSockets l m.username m.sock d hd
  have hdel : aget (adel l.disconnectedPlayers m.username) m.username = none :=
    aget_adel_self _ _ hnodup
  have h1 : aget (applyTrack s.closedSockets l m.username m.sock).1.players m.username
      = some { d.playerData with socket := m.sock } := by
    rw [htr]
    exact aget_aset_self _ _ _
  have h2 : aget (applyTrack s.closedSockets l m.username m.sock).1.disconnectedPlayers
      m.username = none := by
    rw [htr]
    exact hdel
  have h3 : (applyTrack s.closedSockets l m.username m.sock).2
      = broadcastSends s.closedSockets (applyTrack s.closedSockets l m.username m.sock).1
          (OutEvent.playerReconnected m.username) (some m.sock) := by
    rw [htr]
    exact broadcastSends_players_congr s.closedSockets rfl _ _
  have hred : (step s (Event.msg m))
      = ((dispatch
            (setLobby s m.cid (applyTrack s.closedSockets l m.username m.sock).1)
            s.closedSockets m (applyTrack s.closedSockets l m.username m.sock).1).1,
         (if m.type = MsgType.join then [Output.backendValidate m.cid m.username] else [])
           ++ (applyTrack s.closedSockets l m.username m.sock).2
           ++ (dispatch
                (setLobby s m.cid (applyTrack s.closedSockets l m.username m.sock).1)
                s.closedSockets m (applyTrack s.closedSockets l m.username m.sock).1).2) := by
    by_cases hj : m.type = MsgType.join
    · rcases hjoin hj with ⟨hok, hne⟩
      have := handleMsg_join_ok s m hg1 hg2 hj hok (by rw [hget]; exact hne)
      rw [hget] at this
      show handleMsg s m = _
      rw [this]
      simp [hj]
    · have := handleMsg_nonjoin s m hg1 hg2 hj
      rw [hget] at this
      show handleMsg s m = _
      rw [this]
      simp [hj]
  have h5 : ∀ l2, aget (step s (Event.msg m)).1.lobbies m.cid = some l2 →
      aget l2.disconnectedPlayers m.username = none := by
    intro l2 hl2
    rw [hred] at hl2
    have hdp := dispatch_disc_preserved
      (setLobby s m.cid (applyTrack s.closedSockets l m.username m.sock).1)
      s.closedSockets m (applyTrack s.closedSockets l m.username m.sock).1
      (aget_aset_self _ _ _) l2 hl2
    rw [hdp, htr]
    exact hdel
  refine ⟨h1, h2, h3, ⟨_, by rw [hred]⟩, h5, ?_⟩
  cases haget2 : aget (handleMsg s m).1.lobbies m.cid with
  | none => simp [step, handleGrace, haget2]
  | some l2 =>
    have hnone := h5 l2 haget2
    simp [step, handleGrace, haget2, hnone]

/-- Witness for C3 (amended): alice, grace-pending in the IN_PROGRESS
lobby of esPreRank, sends a `codeFinished` message on socket 4; her
record is restored with the new socket and her grace entry is gone. -/
theorem reconnect_restores_pending_applied :
    aget (applyTrack (runState initState esPreRank).closedSockets
        (lobbyAt (runState initState esPreRank) "abc") "alice" 4).1.players "alice"
      = some { (discAt (runState initState esPreRank) "abc" "alice").playerData with
                socket := 4 } ∧
    step (step (runState initState esPreRank)
        (Event.msg (plainMsg 4 MsgType.codeFinished "abc" "alice"))).1
      (Event.graceExpire "abc" "alice")
      = ((step (runState initState esPreRank)
          (Event.msg (plainMsg 4 MsgType.codeFinished "abc" "alice"))).1, []) := by
  have h := reconnect_restores_pending (runState initState esPreRank)
    (plainMsg 4 MsgType.codeFinished "abc" "alice")
    (lobbyAt (runState initState esPreRank) "abc")
    (discAt (runState initState esPreRank) "abc" "alice")
    (by decide) (by decide) (by decide) (by decide) (by decide) (by decide)
  exact ⟨h.1, h.2.2.2.2.2⟩

/-! ### Claim C4 (amended) -/

theorem applyTrack_withEnded (closed : List Nat) (l : Lobby) (u : String) (k : Nat) :
    applyTrack closed { l with challengeEnded := true } u k
      = ({ (applyTrack closed l u k).1 with challengeEnded := true },
         (applyTrack closed l u k).2) := by
  rcases hd : aget l.disconnectedPlayers u with _ | d
  · rcases hp : aget l.players u with _ | p <;>
      simp only [applyTrack, hd, hp]
  · simp only [applyTrack, hd]
    exact congrArg _ (broadcastSends_players_congr closed rfl _ _)

theorem dispatch_withEnded_four (s : SysState) (closed : List Nat) (m : Msg) (t1 : Lobby)
    (ht : m.type = MsgType.codeRunning ∨ m.type = MsgType.codeFinished ∨
          m.type = MsgType.testResults ∨ m.type = MsgType.codeSubmitted) :
    dispatch (setLobby s m.cid { t1 with challengeEnded := true }) closed m
        { t1 with challengeEnded := true }
      = (withEnded (dispatch (setLobby s m.cid t1) closed m t1).1 m.cid,
         (dispatch (setLobby s m.cid t1) closed m t1).2) := by
  rcases ht with h | h | h | h
  · rcases hp : aget t1.players m.username with _ | p <;>
      simp only [dispatch, h, hp] <;>
      simp only [setLobby_setLobby, withEnded_setLobby] <;> rfl
  · rcases hp : aget t1.players m.username with _ | p <;>
      simp only [dispatch, h, hp] <;>
      simp only [setLobby_setLobby, withEnded_setLobby] <;> rfl
  · rcases hp : aget t1.players m.username with _ | p <;>
      rcases hv : m.testsPassed with _ | v <;>
      simp only [dispatch, h, hp, hv] <;>
      simp only [setLobby_setLobby, withEnded_setLobby] <;> rfl
  · rcases hp : aget t1.players m.username with _ | p <;>
      rcases hr : m.submittedResults with _ | r <;>
      rcases hv : m.testsPassed with _ | v <;>
      simp only [dispatch, h, hp, hr, hv]
    · rw [withEnded_setLobby]
    · rw [withEnded_setLobby]
    · rw [withEnded_setLobby]
    · rw [withEnded_setLobby]
    · rw [withEnded_setLobby]
    · rw [withEnded_setLobby]
    · rw [withEnded_setLobby]
    · by_cases h12 : v = 12
      · rw [if_pos h12, if_pos h12]
        simp only [setLobby_setLobby, withEnded_setLobby]
        rfl
      · rw [if_neg h12, if_neg h12]
        simp only [setLobby_setLobby, withEnded_setLobby]
        rfl

/-- Claim C4 (amended): the `codeRunning`, `codeFinished`, `testResults`
and `codeSubmitted` handlers carry no `challengeEnded` guard at all:
processing such a message on the lobby with the flag set produces exactly
the same broadcasts and the same participant-record updates as without
the flag.  In particular a sender still in the active map after
finalization has its record mutated as during the challenge. -/
theorem postEnd_handlers_ignore_ended (s : SysState) (m : Msg) (l : Lobby)
    (hg1 : ¬m.cid = "") (hg2 : ¬m.username = "")
    (hl : aget s.lobbies m.cid = some l)
    (ht : m.type = MsgType.codeRunning ∨ m.type = MsgType.codeFinished ∨
          m.type = MsgType.testResults ∨ m.type = MsgType.codeSubmitted) :
    step (withEnded s m.cid) (Event.msg m)
      = (withEnded (step s (Event.msg m)).1 m.cid, (step s (Event.msg m)).2) := by
  have hj : ¬m.type = MsgType.join := by
    rcases ht with h | h | h | h <;> simp [h]
  have hwE : withEnded s m.cid = setLobby s m.cid { l with challengeEnded := true } := by
    simp [withEnded, hl]
  have hget : (aget s.lobbies m.cid).getD freshLobby = l := by rw [hl]; rfl
  have hgetE : (aget (setLobby s m.cid { l with challengeEnded := true }).lobbies
      m.cid).getD freshLobby = { l with challengeEnded := true } := by
    rw [show (setLobby s m.cid { l with challengeEnded := true }).lobbies
      = aset s.lobbies m.cid { l with challengeEnded := true } from rfl, aget_aset_self]
    rfl
  have hredL := handleMsg_nonjoin (setLobby s m.cid { l with challengeEnded := true })
    m hg1 hg2 hj
  rw [hgetE] at hredL
  rw [show (setLobby s m.cid { l with challengeEnded := true }).closedSockets
    = s.closedSockets from rfl] at hredL
  rw [applyTrack_withEnded] at hredL
  rw [setLobby_setLobby] at hredL
  rw [dispatch_withEnded_four s s.closedSockets m
    (applyTrack s.closedSockets l m.username m.sock).1 ht] at hredL
  have hredR := handleMsg_nonjoin s m hg1 hg2 hj
  rw [hget] at hredR
  show handleMsg (withEnded s m.cid) m
    = (withEnded (handleMsg s m).1 m.cid, (handleMsg s m).2)
  rw [hwE, hredL, hredR]

/-- Witness for C4 (amended) at the esComplete run state with bob's
`codeRunning` message. -/
theorem postEnd_handlers_ignore_ended_applied :
    step (withEnded (runState initState esComplete) "abc")
        (Event.msg (plainMsg 2 MsgType.codeRunning "abc" "bob"))
      = (withEnded (step (runState initState esComplete)
            (Event.msg (plainMsg 2 MsgType.codeRunning "abc" "bob"))).1 "abc",
         (step (runState initState esComplete)
            (Event.msg (plainMsg 2 MsgType.codeRunning "abc" "bob"))).2) :=
  postEnd_handlers_ignore_ended (runState initState esComplete)
    (plainMsg 2 MsgType.codeRunning "abc" "bob")
    (lobbyAt (runState initState esComplete) "abc")
    (by decide) (by decide) (by decide) (by decide)

/-! ### Characterization lemmas for the finalization and dispatch state -/

theorem endChallenge_other (s : SysState) (cid r cid2 : String) (hne : cid2 ≠ cid) :
    aget (endChallenge s cid r).1.lobbies cid2 = aget s.lobbies cid2 := by
  rcases hl : aget s.lobbies cid with _ | l
  · rw [endChallenge_none r hl]
  · by_cases he : l.challengeEnded = true
    · rw [endChallenge_ended r hl he]
    · have hnf : l.challengeEnded = false := by simpa using he
      rw [endChallenge_not_ended r hl hnf]
      exact aget_aset_ne _ _ _ _ hne

theorem endChallenge_lobby_cases (s : SysState) (cid r : String) :
    ∀ l', aget (endChallenge s cid r).1.lobbies cid = some l' →
      aget s.lobbies cid = some l' ∨
      ∃ l, aget s.lobbies cid = some l ∧ l.challengeEnded = false ∧ l' = endedLobby l := by
  intro l' h2
  rcases hl : aget s.lobbies cid with _ | l
  · rw [endChallenge_none r hl] at h2
    have h2x : aget s.lobbies cid = some l' := h2
    exact Or.inl (hl.symm.trans h2x)
  · by_cases he : l.challengeEnded = true
    · rw [endChallenge_ended r hl he] at h2
      have h2x : aget s.lobbies cid = some l' := h2
      exact Or.inl (hl.symm.trans h2x)
    · have hnf : l.challengeEnded = false := by simpa using he
      rw [endChallenge_not_ended r hl hnf] at h2
      rw [show (setLobby s cid (endedLobby l)).lobbies = aset s.lobbies cid (endedLobby l)
        from rfl, aget_aset_self] at h2
      exact Or.inr ⟨l, rfl, hnf, (Option.some_inj.mp h2).symm⟩

theorem endChallenge_end_count (s : SysState) (cid r cid2 : String) :
    countBackendEnd (endChallenge s cid r).2 cid2 ≤ 1 ∧
    (0 < countBackendEnd (endChallenge s cid r).2 cid2 →
      cid2 = cid ∧
      (∃ l, aget s.lobbies cid = some l ∧ l.challengeEnded = false) ∧
      (∃ l', aget (endChallenge s cid r).1.lobbies cid = some l' ∧
        l'.challengeEnded = true)) := by
  rcases hl : aget s.lobbies cid with _ | l
  · rw [endChallenge_none r hl]
    simp [countBackendEnd]
  · by_cases he : l.challengeEnded = true
    · rw [endChallenge_ended r hl he]
      simp [countBackendEnd]
    · have hnf : l.challengeEnded = false := by simpa using he
      rw [endChallenge_not_ended r hl hnf]
      simp only [countBackendEnd_append, countBackendEnd_broadcast]
      by_cases hc : cid = cid2
      · subst hc
        constructor
        · simp [countBackendEnd]
        · intro _
          refine ⟨rfl, ⟨l, rfl, hnf⟩, ⟨endedLobby l, ?_, rfl⟩⟩
          rw [show (setLobby s cid (endedLobby l)).lobbies
            = aset s.lobbies cid (endedLobby l) from rfl, aget_aset_self]
      · have : countBackendEnd [Output.backendEnd cid (finalScoresOf l)] cid2 = 0 := by
          simp [countBackendEnd, hc]
        rw [this]
        simp

theorem endChallenge_start_count (s : SysState) (cid r cid2 : String) :
    countBackendStart (endChallenge s cid r).2 cid2 = 0 := by
  rcases hl : aget s.lobbies cid with _ | l
  · rw [endChallenge_none r hl]
    rfl
  · by_cases he : l.challengeEnded = true
    · rw [endChallenge_ended r hl he]
      rfl
    · have hnf : l.challengeEnded = false := by simpa using he
      rw [endChallenge_not_ended r hl hnf]
      rw [countBackendStart_append, countBackendStart_broadcast]
      rfl

theorem applyTrack_flags (closed : List Nat) (l : Lobby) (u : String) (k : Nat) :
    (applyTrack closed l u k).1.challengeEnded = l.challengeEnded ∧
    (applyTrack closed l u k).1.started = l.started ∧
    (applyTrack closed l u k).1.status = l.status := by
  rcases hd : aget l.disconnectedPlayers u with _ | d
  · rcases hp : aget l.players u with _ | p <;>
      simp [applyTrack, hd, hp]
  · simp [applyTrack, hd]

theorem findPlayerBySocket_mem (k : Nat) (lobbies : List (String × Lobby)) :
    ∀ cid0 l0 u p, findPlayerBySocket k lobbies = some (cid0, l0, u, p) →
      (cid0, l0) ∈ lobbies ∧ (u, p) ∈ l0.players := by
  induction lobbies with
  | nil => intro cid0 l0 u p h; simp [findPlayerBySocket] at h
  | cons e t ih =>
    intro cid0 l0 u p h
    rcases hf : e.2.players.find? (fun q => decide (q.2.socket = k)) with _ | q
    · rw [show findPlayerBySocket k (e :: t)
        = findPlayerBySocket k t by simp [findPlayerBySocket, hf]] at h
      rcases ih cid0 l0 u p h with ⟨h1, h2⟩
      exact ⟨List.mem_cons_of_mem e h1, h2⟩
    · rw [show findPlayerBySocket k (e :: t)
        = some (e.1, e.2, q.1, q.2) by simp [findPlayerBySocket, hf]] at h
      have hqm := List.mem_of_find?_eq_some hf
      have h' := Option.some_inj.mp h
      simp only [Prod.mk.injEq] at h'
      obtain ⟨hc, hl0, hu, hp2⟩ := h'
      subst hc
      subst hl0
      constructor
      · exact List.mem_cons_self e t
      · rw [← hu, ← hp2]
        exact hqm

theorem countBackendEnd_nil (cid : String) : countBackendEnd [] cid = 0 := rfl

theorem countBackendEnd_send (a : Nat) (ev : OutEvent) (rest : List Output) (cid : String) :
    countBackendEnd (Output.send a ev :: rest) cid = countBackendEnd rest cid := by
  simp [countBackendEnd]

theorem countBackendEnd_validate (c u : String) (rest : List Output) (cid : String) :
    countBackendEnd (Output.backendValidate c u :: rest) cid = countBackendEnd rest cid := by
  simp [countBackendEnd]

theorem countBackendEnd_start (c : String) (rest : List Output) (cid : String) :
    countBackendEnd (Output.backendStart c :: rest) cid = countBackendEnd rest cid := by
  simp [countBackendEnd]

theorem countBackendStart_nil (cid : String) : countBackendStart [] cid = 0 := rfl

theorem countBackendStart_send (a : Nat) (ev : OutEvent) (rest : List Output) (cid : String) :
    countBackendStart (Output.send a ev :: rest) cid = countBackendStart rest cid := by
  simp [countBackendStart]

theorem countBackendStart_validate (c u : String) (rest : List Output) (cid : String) :
    countBackendStart (Output.backendValidate c u :: rest) cid = countBackendStart rest cid := by
  simp [countBackendStart]

theorem countBackendStart_end (c : String) (sc : List ScoreEntry) (rest : List Output)
    (cid : String) :
    countBackendStart (Output.backendEnd c sc :: rest) cid = countBackendStart rest cid := by
  simp [countBackendStart]

theorem countBackendStart_self (c : String) (rest : List Output) (cid : String) :
    countBackendStart (Output.backendStart c :: rest) cid
      = (if c = cid then 1 else 0) + countBackendStart rest cid := by
  by_cases hc : c = cid <;> simp [countBackendStart, hc, List.countP_cons] <;> omega

theorem dispatch_other (s2 : SysState) (closed : List Nat) (m : Msg) (t1 : Lobby)
    (cid2 : String) (hne : cid2 ≠ m.cid) :
    aget (dispatch s2 closed m t1).1.lobbies cid2 = aget s2.lobbies cid2 := by
  have hset : ∀ x : Lobby, aget (setLobby s2 m.cid x).lobbies cid2 = aget s2.lobbies cid2 :=
    fun x => aget_aset_ne _ _ _ _ hne
  have hend : ∀ (s3 : SysState) (r : String),
      aget s3.lobbies cid2 = aget s2.lobbies cid2 →
      aget (endChallenge s3 m.cid r).1.lobbies cid2 = aget s2.lobbies cid2 := by
    intro s3 r h3
    rw [endChallenge_other s3 m.cid r cid2 hne, h3]
  cases htype : m.type
  case join => simp only [dispatch, htype]
  case ready =>
    rcases hp : aget t1.players m.username with _ | p <;>
      simp only [dispatch, htype, hp]
    by_cases hw : t1.status = Status.WAITING
    · rw [if_pos hw]
      split
      · exact hset _
      · exact hset _
    · rw [if_neg hw]
  case codeRunning =>
    rcases hp : aget t1.players m.username with _ | p <;>
      simp only [dispatch, htype, hp]
    exact hset _
  case codeFinished =>
    rcases hp : aget t1.players m.username with _ | p <;>
      simp only [dispatch, htype, hp]
    exact hset _
  case testResults =>
    rcases hp : aget t1.players m.username with _ | p <;>
      rcases hv : m.testsPassed with _ | v <;>
      simp only [dispatch, htype, hp, hv]
    exact hset _
  case codeSubmitted =>
    rcases hp : aget t1.players m.username with _ | p <;>
      rcases hr : m.submittedResults with _ | r <;>
      rcases hv : m.testsPassed with _ | v <;>
      simp only [dispatch, htype, hp, hr, hv]
    split
    · exact hset _
    · exact hset _
  case endChallenge =>
    simp only [dispatch, htype]
    split
    · exact hend s2 _ rfl
    · rfl
  case endChallengeForUser =>
    rcases hp : aget t1.players m.username with _ | p <;>
      simp only [dispatch, htype, hp]
    split
    · split
      · exact hend _ _ (hset _)
      · exact hset _
    · split
      · rfl
      · rfl
  case unknown => simp only [dispatch, htype]

theorem dispatch_flags (s2 : SysState) (closed : List Nat) (m : Msg) (t1 : Lobby)
    (hs2 : aget s2.lobbies m.cid = some t1) :
    ∀ l', aget (dispatch s2 closed m t1).1.lobbies m.cid = some l' →
      (l'.challengeEnded = t1.challengeEnded ∨ l'.challengeEnded = true) ∧
      (l'.started = t1.started ∨ l'.started = true) := by
  have hself : ∀ (x : Lobby) (l2 : Lobby),
      aget (setLobby s2 m.cid x).lobbies m.cid = some l2 → l2 = x := by
    intro x l2 h
    rw [show (setLobby s2 m.cid x).lobbies = aset s2.lobbies m.cid x from rfl,
      aget_aset_self] at h
    exact (Option.some_inj.mp h).symm
  have hid : ∀ l2 : Lobby, aget s2.lobbies m.cid = some l2 → l2 = t1 := by
    intro l2 h
    rw [hs2] at h
    exact (Option.some_inj.mp h).symm
  intro l' h2
  cases htype : m.type
  case join =>
    simp only [dispatch, htype] at h2
    rw [hid l' h2]
    exact ⟨Or.inl rfl, Or.inl rfl⟩
  case ready =>
    rcases hp : aget t1.players m.username with _ | p <;>
      simp only [dispatch, htype, hp] at h2
    · rw [hid l' h2]
      exact ⟨Or.inl rfl, Or.inl rfl⟩
    · by_cases hw : t1.status = Status.WAITING
      · rw [if_pos hw] at h2
        split at h2
        · have hx := hself _ l' h2
          subst hx
          exact ⟨Or.inl rfl, Or.inr rfl⟩
        · have hx := hself _ l' h2
          subst hx
          exact ⟨Or.inl rfl, Or.inl rfl⟩
      · rw [if_neg hw] at h2
        rw [hid l' h2]
        exact ⟨Or.inl rfl, Or.inl rfl⟩
  case codeRunning =>
    rcases hp : aget t1.players m.username with _ | p <;>
      simp only [dispatch, htype, hp] at h2
    · rw [hid l' h2]
      exact ⟨Or.inl rfl, Or.inl rfl⟩
    · have hx := hself _ l' h2
      subst hx
      exact ⟨Or.inl rfl, Or.inl rfl⟩
  case codeFinished =>
    rcases hp : aget t1.players m.username with _ | p <;>
      simp only [dispatch, htype, hp] at h2
    · rw [hid l' h2]
      exact ⟨Or.inl rfl, Or.inl rfl⟩
    · have hx := hself _ l' h2
      subst hx
      exact ⟨Or.inl rfl, Or.inl rfl⟩
  case testResults =>
    rcases hp : aget t1.players m.username with _ | p <;>
      rcases hv : m.testsPassed with _ | v <;>
      simp only [dispatch, htype, hp, hv] at h2 <;>
      try (rw [hid l' h2]; exact ⟨Or.inl rfl, Or.inl rfl⟩)
    have hx := hself _ l' h2
    subst hx
    exact ⟨Or.inl rfl, Or.inl rfl⟩
  case codeSubmitted =>
    rcases hp : aget t1.players m.username with _ | p <;>
      rcases hr : m.submittedResults with _ | r <;>
      rcases hv : m.testsPassed with _ | v <;>
      simp only [dispatch, htype, hp, hr, hv] at h2 <;>
      try (rw [hid l' h2]; exact ⟨Or.inl rfl, Or.inl rfl⟩)
    split at h2
    · have hx := hself _ l' h2
      subst hx
      exact ⟨Or.inl rfl, Or.inl rfl⟩
    · have hx := hself _ l' h2
      subst hx
      exact ⟨Or.inl rfl, Or.inl rfl⟩
  case endChallenge =>
    simp only [dispatch, htype] at h2
    split at h2
    · rcases endChallenge_lobby_cases s2 m.cid _ l' h2 with h | ⟨l0, hl0, hne0, hlE⟩
      · rw [hid l' h]
        exact ⟨Or.inl rfl, Or.inl rfl⟩
      · have := hid l0 hl0
        subst this
        rw [hlE]
        exact ⟨Or.inr rfl, Or.inl rfl⟩
    · rw [hid l' h2]
      exact ⟨Or.inl rfl, Or.inl rfl⟩
  case endChallengeForUser =>
    rcases hp : aget t1.players m.username with _ | p <;>
      simp only [dispatch, htype, hp] at h2
    · rw [hid l' h2]
      exact ⟨Or.inl rfl, Or.inl rfl⟩
    · split at h2
      · split at h2
        · rcases endChallenge_lobby_cases _ m.cid _ l' h2 with h | ⟨l0, hl0, hne0, hlE⟩
          · have hx := hself _ l' h
            subst hx
            exact ⟨Or.inl rfl, Or.inl rfl⟩
          · have hx := hself _ l0 hl0
            subst hx
            rw [hlE]
            exact ⟨Or.inr rfl, Or.inl rfl⟩
        · have hx := hself _ l' h2
          subst hx
          exact ⟨Or.inl rfl, Or.inl rfl⟩
      · split at h2
        · rw [hid l' h2]
          exact ⟨Or.inl rfl, Or.inl rfl⟩
        · rw [hid l' h2]
          exact ⟨Or.inl rfl, Or.inl rfl⟩
  case unknown =>
    simp only [dispatch, htype] at h2
    rw [hid l' h2]
    exact ⟨Or.inl rfl, Or.inl rfl⟩

theorem dispatch_end_count (s2 : SysState) (closed : List Nat) (m : Msg) (t1 : Lobby)
    (hs2 : aget s2.lobbies m.cid = some t1) (cid2 : String) :
    countBackendEnd (dispatch s2 closed m t1).2 cid2 ≤ 1 ∧
    (0 < countBackendEnd (dispatch s2 closed m t1).2 cid2 →
      cid2 = m.cid ∧ t1.challengeEnded = false ∧
      ∃ l', aget (dispatch s2 closed m t1).1.lobbies m.cid = some l' ∧
        l'.challengeEnded = true) := by
  rcases hD : dispatch s2 closed m t1 with ⟨S, O⟩
  cases htype : m.type
  case join =>
    simp only [dispatch, htype] at hD
    simp only [Prod.mk.injEq] at hD
    obtain ⟨hS, hO⟩ := hD
    subst hS
    subst hO
    rw [countBackendEnd_send, countBackendEnd_broadcast]
    simp
  case ready =>
    rcases hp : aget t1.players m.username with _ | p <;>
      simp only [dispatch, htype, hp] at hD
    · simp only [Prod.mk.injEq] at hD
      obtain ⟨hS, hO⟩ := hD
      subst hS
      subst hO
      simp [countBackendEnd_nil]
    · split at hD
      · split at hD <;> simp only [Prod.mk.injEq] at hD <;> obtain ⟨hS, hO⟩ := hD <;>
          subst hS <;> subst hO
        · rw [countBackendEnd_append, countBackendEnd_broadcast, countBackendEnd_start]
          simp [countBackendEnd_nil]
        · rw [countBackendEnd_broadcast]
          simp
      · simp only [Prod.mk.injEq] at hD
        obtain ⟨hS, hO⟩ := hD
        subst hS
        subst hO
        simp [countBackendEnd_nil]
  case codeRunning =>
    rcases hp : aget t1.players m.username with _ | p <;>
      simp only [dispatch, htype, hp] at hD <;>
      simp only [Prod.mk.injEq] at hD <;> obtain ⟨hS, hO⟩ := hD <;> subst hS <;> subst hO
    · simp [countBackendEnd_nil]
    · rw [countBackendEnd_broadcast]
      simp
  case codeFinished =>
    rcases hp : aget t1.players m.username with _ | p <;>
      simp only [dispatch, htype, hp] at hD <;>
      simp only [Prod.mk.injEq] at hD <;> obtain ⟨hS, hO⟩ := hD <;> subst hS <;> subst hO
    · simp [countBackendEnd_nil]
    · rw [countBackendEnd_broadcast]
      simp
  case testResults =>
    rcases hp : aget t1.players m.username with _ | p <;>
      rcases hv : m.testsPassed with _ | v <;>
      simp only [dispatch, htype, hp, hv] at hD <;>
      simp only [Prod.mk.injEq] at hD <;> obtain ⟨hS, hO⟩ := hD <;> subst hS <;> subst hO <;>
      try simp [countBackendEnd_nil]
    rw [countBackendEnd_broadcast]
    simp
  case codeSubmitted =>
    rcases hp : aget t1.players m.username with _ | p <;>
      rcases hr : m.submittedResults with _ | r <;>
      rcases hv : m.testsPassed with _ | v <;>
      simp only [dispatch, htype, hp, hr, hv] at hD
    case some.some.some =>
      split at hD <;> simp only [Prod.mk.injEq] at hD <;> obtain ⟨hS, hO⟩ := hD <;>
        subst hS <;> subst hO
      · rw [countBackendEnd_append, countBackendEnd_broadcast, countBackendEnd_broadcast]
        simp
      · rw [countBackendEnd_broadcast]
        simp
    all_goals
      simp only [Prod.mk.injEq] at hD
    all_goals
      obtain ⟨hS, hO⟩ := hD
    all_goals
      subst hS
    all_goals
      subst hO
    all_goals
      simp [countBackendEnd_nil]
  case endChallenge =>
    simp only [dispatch, htype] at hD
    split at hD
    · rename_i hcond
      have hE := endChallenge_end_count s2 m.cid (String.append "Ended by " m.username) cid2
      rw [hD] at hE
      refine ⟨hE.1, ?_⟩
      intro hpos
      rcases hE.2 hpos with ⟨hc, ⟨l0, hl0, hne0⟩, ⟨l3, hl3, he3⟩⟩
      refine ⟨hc, ?_, ⟨l3, ?_, he3⟩⟩
      · rw [hs2] at hl0
        rw [← Option.some_inj.mp hl0] at hne0
        exact hne0
      · exact hl3
    · simp only [Prod.mk.injEq] at hD
      obtain ⟨hS, hO⟩ := hD
      subst hS
      subst hO
      simp [countBackendEnd_nil]
  case endChallengeForUser =>
    rcases hp : aget t1.players m.username with _ | p <;>
      simp only [dispatch, htype, hp] at hD
    · simp only [Prod.mk.injEq] at hD
      obtain ⟨hS, hO⟩ := hD
      subst hS
      subst hO
      simp [countBackendEnd_nil]
    · split at hD
      · rename_i hcond
        split at hD
        · simp only [Prod.mk.injEq] at hD
          obtain ⟨hS, hO⟩ := hD
          subst hS
          subst hO
          rw [countBackendEnd_append, countBackendEnd_append, countBackendEnd_broadcast,
            countBackendEnd_send, countBackendEnd_nil]
          have hE := endChallenge_end_count
            (setLobby s2 m.cid
              { t1 with
                completedPlayers := aset t1.completedPlayers m.username
                  { snapshot := p, finalScore := jsOr p.submittedResults 0 }
                players := adel t1.players m.username })
            m.cid "All players completed" cid2
          have hle2 := hE.1
          refine ⟨by omega, ?_⟩
          intro hpos
          have hpos2 : 0 < countBackendEnd (endChallenge
              (setLobby s2 m.cid
                { t1 with
                  completedPlayers := aset t1.completedPlayers m.username
                    { snapshot := p, finalScore := jsOr p.submittedResults 0 }
                  players := adel t1.players m.username })
              m.cid "All players completed").2 cid2 := by omega
          rcases hE.2 hpos2 with ⟨hc, _, ⟨l3, hl3, he3⟩⟩
          exact ⟨hc, hcond.2.1, ⟨l3, hl3, he3⟩⟩
        · simp only [Prod.mk.injEq] at hD
          obtain ⟨hS, hO⟩ := hD
          subst hS
          subst hO
          rw [countBackendEnd_append, countBackendEnd_broadcast, countBackendEnd_send,
            countBackendEnd_nil]
          simp
      · split at hD <;> simp only [Prod.mk.injEq] at hD <;> obtain ⟨hS, hO⟩ := hD <;>
          subst hS <;> subst hO
        · rw [countBackendEnd_send, countBackendEnd_nil]
          simp
        · simp [countBackendEnd_nil]
  case unknown =>
    simp only [dispatch, htype] at hD
    simp only [Prod.mk.injEq] at hD
    obtain ⟨hS, hO⟩ := hD
    subst hS
    subst hO
    simp [countBackendEnd_nil]

theorem dispatch_start_count (s2 : SysState) (closed : List Nat) (m : Msg) (t1 : Lobby)
    (hs2 : aget s2.lobbies m.cid = some t1) (cid2 : String) :
    countBackendStart (dispatch s2 closed m t1).2 cid2 ≤ 1 ∧
    (0 < countBackendStart (dispatch s2 closed m t1).2 cid2 →
      cid2 = m.cid ∧ t1.started = false ∧
      ∃ l', aget (dispatch s2 closed m t1).1.lobbies m.cid = some l' ∧
        l'.started = true) := by
  rcases hD : dispatch s2 closed m t1 with ⟨S, O⟩
  cases htype : m.type
  case join =>
    simp only [dispatch, htype] at hD
    simp only [Prod.mk.injEq] at hD
    obtain ⟨hS, hO⟩ := hD
    subst hS
    subst hO
    rw [countBackendStart_send, countBackendStart_broadcast]
    simp
  case ready =>
    rcases hp : aget t1.players m.username with _ | p <;>
      simp only [dispatch, htype, hp] at hD
    · simp only [Prod.mk.injEq] at hD
      obtain ⟨hS, hO⟩ := hD
      subst hS
      subst hO
      simp [countBackendStart_nil]
    · split at hD
      · split at hD
        · rename_i hball
          simp only [Prod.mk.injEq] at hD
          obtain ⟨hS, hO⟩ := hD
          subst hS
          subst hO
          rw [countBackendStart_append, countBackendStart_broadcast,
            countBackendStart_self, countBackendStart_nil]
          have hstf : t1.started = false := by
            simp only [Bool.and_eq_true, Bool.not_eq_eq_eq_not, Bool.not_true] at hball
            exact hball.2
          by_cases hc : m.cid = cid2
          · subst hc
            refine ⟨by simp, ?_⟩
            intro _
            refine ⟨rfl, hstf, ⟨_, aget_aset_self _ _ _, rfl⟩⟩
          · simp [hc]
        · simp only [Prod.mk.injEq] at hD
          obtain ⟨hS, hO⟩ := hD
          subst hS
          subst hO
          rw [countBackendStart_broadcast]
          simp
      · simp only [Prod.mk.injEq] at hD
        obtain ⟨hS, hO⟩ := hD
        subst hS
        subst hO
        simp [countBackendStart_nil]
  case codeRunning =>
    rcases hp : aget t1.players m.username with _ | p <;>
      simp only [dispatch, htype, hp] at hD <;>
      simp only [Prod.mk.injEq] at hD <;> obtain ⟨hS, hO⟩ := hD <;> subst hS <;> subst hO
    · simp [countBackendStart_nil]
    · rw [countBackendStart_broadcast]
      simp
  case codeFinished =>
    rcases hp : aget t1.players m.username with _ | p <;>
      simp only [dispatch, htype, hp] at hD <;>
      simp only [Prod.mk.injEq] at hD <;> obtain ⟨hS, hO⟩ := hD <;> subst hS <;> subst hO
    · simp [countBackendStart_nil]
    · rw [countBackendStart_broadcast]
      simp
  case testResults =>
    rcases hp : aget t1.players m.username with _ | p <;>
      rcases hv : m.testsPassed with _ | v <;>
      simp only [dispatch, htype, hp, hv] at hD <;>
      simp only [Prod.mk.injEq] at hD <;> obtain ⟨hS, hO⟩ := hD <;> subst hS <;> subst hO <;>
      try simp [countBackendStart_nil]
    rw [countBackendStart_broadcast]
    simp
  case codeSubmitted =>
    rcases hp : aget t1.players m.username with _ | p <;>
      rcases hr : m.submittedResults with _ | r <;>
      rcases hv : m.testsPassed with _ | v <;>
      simp only [dispatch, htype, hp, hr, hv] at hD
    case some.some.some =>
      split at hD <;> simp only [Prod.mk.injEq] at hD <;> obtain ⟨hS, hO⟩ := hD <;>
        subst hS <;> subst hO
      · rw [countBackendStart_append, countBackendStart_broadcast, countBackendStart_broadcast]
        simp
      · rw [countBackendStart_broadcast]
        simp
    all_goals
      simp only [Prod.mk.injEq] at hD
    all_goals
      obtain ⟨hS, hO⟩ := hD
    all_goals
      subst hS
    all_goals
      subst hO
    all_goals
      simp [countBackendStart_nil]
  case endChallenge =>
    simp only [dispatch, htype] at hD
    split at hD
    · have hE := endChallenge_start_count s2 m.cid (String.append "Ended by " m.username) cid2
      rw [hD] at hE
      rw [hE]
      simp
    · simp only [Prod.mk.injEq] at hD
      obtain ⟨hS, hO⟩ := hD
      subst hS
      subst hO
      simp [countBackendStart_nil]
  case endChallengeForUser =>
    rcases hp : aget t1.players m.username with _ | p <;>
      simp only [dispatch, htype, hp] at hD
    · simp only [Prod.mk.injEq] at hD
      obtain ⟨hS, hO⟩ := hD
      subst hS
      subst hO
      simp [countBackendStart_nil]
    · split at hD
      · split at hD
        · simp only [Prod.mk.injEq] at hD
          obtain ⟨hS, hO⟩ := hD
          subst hS
          subst hO
          rw [countBackendStart_append, countBackendStart_append, countBackendStart_broadcast,
            countBackendStart_send, countBackendStart_nil,
            endChallenge_start_count]
          simp
        · simp only [Prod.mk.injEq] at hD
          obtain ⟨hS, hO⟩ := hD
          subst hS
          subst hO
          rw [countBackendStart_append, countBackendStart_broadcast, countBackendStart_send,
            countBackendStart_nil]
          simp
      · split at hD <;> simp only [Prod.mk.injEq] at hD <;> obtain ⟨hS, hO⟩ := hD <;>
          subst hS <;> subst hO
        · rw [countBackendStart_send, countBackendStart_nil]
          simp
        · simp [countBackendStart_nil]
  case unknown =>
    simp only [dispatch, htype] at hD
    simp only [Prod.mk.injEq] at hD
    obtain ⟨hS, hO⟩ := hD
    subst hS
    subst hO
    simp [countBackendStart_nil]

/-! ### Step-level flag monotonicity: `challengeEnded` and `started` are
never cleared on a surviving lobby -/

theorem aget_setLobby_some (s : SysState) (c cid : String) (v l' : Lobby)
    (h : aget (setLobby s c v).lobbies cid = some l') :
    (cid = c ∧ l' = v) ∨ (cid ≠ c ∧ aget s.lobbies cid = some l') := by
  by_cases hc : cid = c
  · subst hc
    rw [show (setLobby s cid v).lobbies = aset s.lobbies cid v from rfl,
      aget_aset_self] at h
    exact Or.inl ⟨rfl, (Option.some_inj.mp h).symm⟩
  · rw [show (setLobby s c v).lobbies = aset s.lobbies c v from rfl,
      aget_aset_ne _ _ _ _ hc] at h
    exact Or.inr ⟨hc, h⟩

theorem aget_adel_some {V : Type} (l : List (String × V)) (c cid : String) (v : V)
    (hn : (keysOf l).Nodup) (h : aget (adel l c) cid = some v) :
    aget l cid = some v := by
  by_cases hc : cid = c
  · subst hc
    rw [aget_adel_self _ _ hn] at h
    exact absurd h (by simp)
  · rw [aget_adel_ne _ _ _ hc] at h
    exact h

theorem aget_adel_aset_some {V : Type} (l : List (String × V)) (c cid : String)
    (v v' : V) (hn : (keysOf l).Nodup) (h : aget (adel (aset l c v) c) cid = some v') :
    aget l cid = some v' := by
  have h2 := aget_adel_some (aset l c v) c cid v' (nodup_keysOf_aset _ _ _ hn) h
  by_cases hc : cid = c
  · subst hc
    rw [aget_adel_self _ _ (nodup_keysOf_aset _ _ _ hn)] at h
    exact absurd h (by simp)
  · rw [aget_aset_ne _ _ _ _ hc] at h2
    exact h2

theorem step_flags_mono (s : SysState) (e : Event) (cid : String) (l l' : Lobby)
    (hWF : (keysOf s.lobbies).Nodup)
    (hl : aget s.lobbies cid = some l)
    (hl' : aget (step s e).1.lobbies cid = some l') :
    (l.challengeEnded = true → l'.challengeEnded = true) ∧
    (l.started = true → l'.started = true) := by
  have hsame : ∀ l2 : Lobby, aget s.lobbies cid = some l2 → l2 = l := by
    intro l2 h
    rw [hl] at h
    exact (Option.some_inj.mp h).symm
  have hrefl : (l.challengeEnded = true → l.challengeEnded = true) ∧
      (l.started = true → l.started = true) := ⟨fun h => h, fun h => h⟩
  cases e
  case msg m =>
    simp only [step, handleMsg] at hl'
    split at hl'
    · rw [hsame l' hl']
      exact hrefl
    · split at hl'
      · rw [hsame l' hl']
        exact hrefl
      · split at hl'
        · rw [hsame l' hl']
          exact hrefl
        · have hl2 : aget (dispatch (setLobby s m.cid
              (applyTrack s.closedSockets ((aget s.lobbies m.cid).getD freshLobby)
                m.username m.sock).1) s.closedSockets m
              (applyTrack s.closedSockets ((aget s.lobbies m.cid).getD freshLobby)
                m.username m.sock).1).1.lobbies cid = some l' := hl'
          by_cases hc : cid = m.cid
          · subst hc
            have hgetD : (aget s.lobbies m.cid).getD freshLobby = l := by
              rw [hl]
              rfl
            rw [hgetD] at hl2
            have hfl := dispatch_flags (setLobby s m.cid
                (applyTrack s.closedSockets l m.username m.sock).1) s.closedSockets m
              (applyTrack s.closedSockets l m.username m.sock).1
              (aget_aset_self _ _ _) l' hl2
            have htf := applyTrack_flags s.closedSockets l m.username m.sock
            constructor
            · intro he
              rcases hfl.1 with h1 | h1
              · rw [h1, htf.1]
                exact he
              · exact h1
            · intro hst
              rcases hfl.2 with h1 | h1
              · rw [h1, htf.2.1]
                exact hst
              · exact h1
          · rw [dispatch_other _ _ _ _ cid hc] at hl2
            rcases aget_setLobby_some s m.cid cid _ l' hl2 with ⟨hc2, _⟩ | ⟨_, hx⟩
            · exact absurd hc2 hc
            · rw [hsame l' hx]
              exact hrefl
  case socketClose k =>
    rcases hf : findPlayerBySocket k s.lobbies with _ | q
    · simp only [step, handleClose, hf] at hl'
      rw [hsame l' hl']
      exact hrefl
    · rcases q with ⟨cid0, l0, u, p⟩
      simp only [step, handleClose, hf] at hl'
      have hmem := findPlayerBySocket_mem k s.lobbies cid0 l0 u p hf
      have hl0 : aget s.lobbies cid0 = some l0 := aget_of_pair_mem hmem.1 hWF
      have hl2 : aget (setLobby s cid0
          { l0 with
            disconnectedPlayers := aset l0.disconnectedPlayers u { playerData := p }
            players := adel l0.players u }).lobbies cid = some l' := hl'
      rcases aget_setLobby_some s cid0 cid _ l' hl2 with ⟨hc, hv⟩ | ⟨_, hx⟩
      · subst hc
        have hle : l0 = l := hsame l0 hl0
        subst hle
        rw [hv]
        exact hrefl
      · rw [hsame l' hx]
        exact hrefl
  case graceExpire c u =>
    rcases hla : aget s.lobbies c with _ | l0
    · simp only [step, handleGrace, hla] at hl'
      rw [hsame l' hl']
      exact hrefl
    · rcases hd : aget l0.disconnectedPlayers u with _ | d
      · simp only [step, handleGrace, hla, hd] at hl'
        rw [hsame l' hl']
        exact hrefl
      · simp only [step, handleGrace, hla, hd] at hl'
        have hsimple : ∀ lx : Lobby,
            aget (setLobby s c { l0 with
              disconnectedPlayers := adel l0.disconnectedPlayers u }).lobbies cid
              = some lx →
            (l.challengeEnded = true → lx.challengeEnded = true) ∧
            (l.started = true → lx.started = true) := by
          intro lx hx
          rcases aget_setLobby_some s c cid _ lx hx with ⟨hc, hv⟩ | ⟨_, hx2⟩
          · subst hc
            have hle : l0 = l := hsame l0 hla
            subst hle
            rw [hv]
            exact hrefl
          · rw [hsame lx hx2]
            exact hrefl
        split at hl'
        · split at hl'
          · by_cases hc : cid = c
            · subst hc
              rcases endChallenge_lobby_cases _ cid _ l' hl' with h | ⟨lx, hlx, hnex, hlE⟩
              · exact hsimple l' h
              · have hfx := hsimple lx hlx
                rw [hlE]
                constructor
                · intro _
                  rfl
                · intro hst
                  exact hfx.2 hst
            · rw [endChallenge_other _ c _ cid hc] at hl'
              exact hsimple l' hl'
          · split at hl'
            · have hx : aget s.lobbies cid = some l' :=
                aget_adel_aset_some s.lobbies c cid _ l' hWF hl'
              rw [hsame l' hx]
              exact hrefl
            · exact hsimple l' hl'
        · split at hl'
          · exact hsimple l' hl'
          · exact hsimple l' hl'
  case tickExpire c =>
    rcases hla : aget s.lobbies c with _ | l0
    · simp only [step, handleTick, hla] at hl'
      rw [hsame l' hl']
      exact hrefl
    · rcases ht : l0.timer with _ | t
      · simp only [step, handleTick, hla, ht] at hl'
        rw [hsame l' hl']
        exact hrefl
      · simp only [step, handleTick, hla, ht] at hl'
        split at hl'
        · rw [hsame l' hl']
          exact hrefl
        · have hsimple : ∀ lx : Lobby,
              aget (setLobby s c { l0 with
                timer := some { t with intervalCleared := true } }).lobbies cid
                = some lx →
              (l.challengeEnded = true → lx.challengeEnded = true) ∧
              (l.started = true → lx.started = true) := by
            intro lx hx
            rcases aget_setLobby_some s c cid _ lx hx with ⟨hc, hv⟩ | ⟨_, hx2⟩
            · subst hc
              have hle : l0 = l := hsame l0 hla
              subst hle
              rw [hv]
              exact hrefl
            · rw [hsame lx hx2]
              exact hrefl
          by_cases hc : cid = c
          · subst hc
            rcases endChallenge_lobby_cases _ cid _ l' hl' with h | ⟨lx, hlx, hnex, hlE⟩
            · exact hsimple l' h
            · have hfx := hsimple lx hlx
              rw [hlE]
              exact ⟨fun _ => rfl, fun hst => hfx.2 hst⟩
          · rw [endChallenge_other _ c _ cid hc] at hl'
            exact hsimple l' hl'
  case backstopFire c =>
    rcases hla : aget s.lobbies c with _ | l0
    · simp only [step, handleBackstop, hla] at hl'
      rw [hsame l' hl']
      exact hrefl
    · simp only [step, handleBackstop, hla] at hl'
      split at hl'
      · rcases ht : l0.timer with _ | t <;> simp only [ht] at hl'
        · rcases aget_setLobby_some s c cid _ l' hl' with ⟨hc, hv⟩ | ⟨_, hx⟩
          · subst hc
            have hle : l0 = l := hsame l0 hla
            subst hle
            rw [hv]
            exact hrefl
          · rw [hsame l' hx]
            exact hrefl
        · have hsimple : ∀ lx : Lobby,
              aget (setLobby s c { l0 with
                backstopPending := false
                timer := some { t with intervalCleared := true } }).lobbies cid
                = some lx →
              (l.challengeEnded = true → lx.challengeEnded = true) ∧
              (l.started = true → lx.started = true) := by
            intro lx hx
            rcases aget_setLobby_some s c cid _ lx hx with ⟨hc, hv⟩ | ⟨_, hx2⟩
            · subst hc
              have hle : l0 = l := hsame l0 hla
              subst hle
              rw [hv]
              exact hrefl
            · rw [hsame lx hx2]
              exact hrefl
          by_cases hc : cid = c
          · subst hc
            rcases endChallenge_lobby_cases _ cid _ l' hl' with h | ⟨lx, hlx, hnex, hlE⟩
            · exact hsimple l' h
            · have hfx := hsimple lx hlx
              rw [hlE]
              exact ⟨fun _ => rfl, fun hst => hfx.2 hst⟩
          · rw [endChallenge_other _ c _ cid hc] at hl'
            exact hsimple l' hl'
      · rw [hsame l' hl']
        exact hrefl
  case startResolve c ok =>
    rcases hla : aget s.lobbies c with _ | l0
    · simp only [step, handleStartResolve, hla] at hl'
      rw [hsame l' hl']
      exact hrefl
    · simp only [step, handleStartResolve, hla] at hl'
      split at hl'
      · have hl2 : aget (setLobby s c
            { l0 with
              pendingStart := false
              status := Status.IN_PROGRESS
              timer := some { intervalCleared := false }
              backstopPending := true }).lobbies cid = some l' := hl'
        rcases aget_setLobby_some s c cid _ l' hl2 with ⟨hc, hv⟩ | ⟨_, hx⟩
        · subst hc
          have hle : l0 = l := hsame l0 hla
          subst hle
          rw [hv]
          exact hrefl
        · rw [hsame l' hx]
          exact hrefl
      · rw [hsame l' hl']
        exact hrefl
  case endResolve c ok =>
    rcases hla : aget s.lobbies c with _ | l0
    · simp only [step, handleEndResolve, hla] at hl'
      rw [hsame l' hl']
      exact hrefl
    · simp only [step, handleEndResolve, hla] at hl'
      split at hl'
      · have hl2 : aget (setLobby s c
            { l0 with
              pendingEndConfirm := false
              cleanupScheduled := true }).lobbies cid = some l' := hl'
        rcases aget_setLobby_some s c cid _ l' hl2 with ⟨hc, hv⟩ | ⟨_, hx⟩
        · subst hc
          have hle : l0 = l := hsame l0 hla
          subst hle
          rw [hv]
          exact hrefl
        · rw [hsame l' hx]
          exact hrefl
      · rw [hsame l' hl']
        exact hrefl
  case cleanupFire c =>
    rcases hla : aget s.lobbies c with _ | l0
    · simp only [step, handleCleanup, hla] at hl'
      rw [hsame l' hl']
      exact hrefl
    · simp only [step, handleCleanup, hla] at hl'
      split at hl'
      · have hx : aget s.lobbies cid = some l' :=
          aget_adel_some s.lobbies c cid l' hWF hl'
        rw [hsame l' hx]
        exact hrefl
      · rw [hsame l' hl']
        exact hrefl
  case inactivityFire c =>
    rcases hla : aget s.lobbies c with _ | l0
    · simp only [step, handleInactivity, hla] at hl'
      rw [hsame l' hl']
      exact hrefl
    · simp only [step, handleInactivity, hla] at hl'
      split at hl'
      · split at hl'
        · have hx : aget s.lobbies cid = some l' :=
            aget_adel_some s.lobbies c cid l' hWF hl'
          rw [hsame l' hx]
          exact hrefl
        · have hl2 : aget (setLobby s c
              { l0 with inactivityPending := false }).lobbies cid = some l' := hl'
          rcases aget_setLobby_some s c cid _ l' hl2 with ⟨hc, hv⟩ | ⟨_, hx⟩
          · subst hc
            have hle : l0 = l := hsame l0 hla
            subst hle
            rw [hv]
            exact hrefl
          · rw [hsame l' hx]
            exact hrefl
      · rw [hsame l' hl']
        exact hrefl

/-! ### Step-level accounting of backend mutations -/

theorem applyTrack_end_count (closed : List Nat) (l : Lobby) (u : String) (k : Nat)
    (cid : String) : countBackendEnd (applyTrack closed l u k).2 cid = 0 := by
  rcases hd : aget l.disconnectedPlayers u with _ | d
  · rcases hp : aget l.players u with _ | p <;>
      simp [applyTrack, hd, hp, countBackendEnd_nil]
  · simp [applyTrack, hd, countBackendEnd_broadcast]

theorem applyTrack_start_count (closed : List Nat) (l : Lobby) (u : String) (k : Nat)
    (cid : String) : countBackendStart (applyTrack closed l u k).2 cid = 0 := by
  rcases hd : aget l.disconnectedPlayers u with _ | d
  · rcases hp : aget l.players u with _ | p <;>
      simp [applyTrack, hd, hp, countBackendStart_nil]
  · simp [applyTrack, hd, countBackendStart_broadcast]

theorem end_count_triple_zero (outs : List Output) (L : List (String × Lobby))
    (s : SysState) (cid : String)
    (h : countBackendEnd outs cid = 0) :
    countBackendEnd outs cid ≤ 1 ∧
    (0 < countBackendEnd outs cid →
      ∃ l', aget L cid = some l' ∧ l'.challengeEnded = true) ∧
    (∀ l, aget s.lobbies cid = some l → l.challengeEnded = true →
      countBackendEnd outs cid = 0) :=
  ⟨by omega, fun hpos => absurd hpos (by omega), fun _ _ _ => h⟩

theorem start_count_triple_zero (outs : List Output) (L : List (String × Lobby))
    (s : SysState) (cid : String)
    (h : countBackendStart outs cid = 0) :
    countBackendStart outs cid ≤ 1 ∧
    (0 < countBackendStart outs cid →
      ∃ l', aget L cid = some l' ∧ l'.started = true) ∧
    (∀ l, aget s.lobbies cid = some l → l.started = true →
      countBackendStart outs cid = 0) :=
  ⟨by omega, fun hpos => absurd hpos (by omega), fun _ _ _ => h⟩

/-- One step emits at most one backend `endChallenge` mutation per lobby;
a positive emission leaves the post-state lobby flagged `challengeEnded`,
and a pre-state lobby already flagged `challengeEnded` suppresses any
emission. -/
theorem step_end_count (s : SysState) (e : Event) (cid : String) :
    countBackendEnd (step s e).2 cid ≤ 1 ∧
    (0 < countBackendEnd (step s e).2 cid →
      ∃ l', aget (step s e).1.lobbies cid = some l' ∧ l'.challengeEnded = true) ∧
    (∀ l, aget s.lobbies cid = some l → l.challengeEnded = true →
      countBackendEnd (step s e).2 cid = 0) := by
  cases e
  case msg m =>
    simp only [step, handleMsg]
    split
    · exact end_count_triple_zero [] _ s cid (countBackendEnd_nil cid)
    · split
      · exact end_count_triple_zero _ _ s cid
          (by rw [countBackendEnd_validate, countBackendEnd_send]; rfl)
      · split
        · exact end_count_triple_zero _ _ s cid
            (by rw [countBackendEnd_append]
                split
                · rw [countBackendEnd_validate, countBackendEnd_nil,
                    countBackendEnd_send, countBackendEnd_nil]
                · rw [countBackendEnd_nil, countBackendEnd_send, countBackendEnd_nil])
        · have hcnt : countBackendEnd
              ((if m.type = MsgType.join
                  then [Output.backendValidate m.cid m.username] else []) ++
                (applyTrack s.closedSockets ((aget s.lobbies m.cid).getD freshLobby)
                  m.username m.sock).2 ++
                (dispatch (setLobby s m.cid
                    (applyTrack s.closedSockets ((aget s.lobbies m.cid).getD freshLobby)
                      m.username m.sock).1) s.closedSockets m
                  (applyTrack s.closedSockets ((aget s.lobbies m.cid).getD freshLobby)
                    m.username m.sock).1).2) cid
              = countBackendEnd (dispatch (setLobby s m.cid
                  (applyTrack s.closedSockets ((aget s.lobbies m.cid).getD freshLobby)
                    m.username m.sock).1) s.closedSockets m
                (applyTrack s.closedSockets ((aget s.lobbies m.cid).getD freshLobby)
                  m.username m.sock).1).2 cid := by
            rw [countBackendEnd_append, countBackendEnd_append, applyTrack_end_count]
            have hv : countBackendEnd
                (if m.type = MsgType.join
                  then [Output.backendValidate m.cid m.username] else []) cid = 0 := by
              split
              · rw [countBackendEnd_validate, countBackendEnd_nil]
              · rw [countBackendEnd_nil]
            rw [hv]
            omega
          have hdd := dispatch_end_count (setLobby s m.cid
              (applyTrack s.closedSockets ((aget s.lobbies m.cid).getD freshLobby)
                m.username m.sock).1) s.closedSockets m
            (applyTrack s.closedSockets ((aget s.lobbies m.cid).getD freshLobby)
              m.username m.sock).1 (aget_aset_self _ _ _) cid
          refine ⟨?_, ?_, ?_⟩
          · have h1 := hdd.1
            rw [show countBackendEnd ((dispatch (setLobby s m.cid
                (applyTrack s.closedSockets ((aget s.lobbies m.cid).getD freshLobby)
                  m.username m.sock).1) s.closedSockets m
                (applyTrack s.closedSockets ((aget s.lobbies m.cid).getD freshLobby)
                  m.username m.sock).1).1,
                (if m.type = MsgType.join
                    then [Output.backendValidate m.cid m.username] else []) ++
                  (applyTrack s.closedSockets ((aget s.lobbies m.cid).getD freshLobby)
                    m.username m.sock).2 ++
                  (dispatch (setLobby s m.cid
                      (applyTrack s.closedSockets ((aget s.lobbies m.cid).getD freshLobby)
                        m.username m.sock).1) s.closedSockets m
                    (applyTrack s.closedSockets ((aget s.lobbies m.cid).getD freshLobby)
                      m.username m.sock).1).2).2 cid
              = countBackendEnd (dispatch (setLobby s m.cid
                  (applyTrack s.closedSockets ((aget s.lobbies m.cid).getD freshLobby)
                    m.username m.sock).1) s.closedSockets m
                (applyTrack s.closedSockets ((aget s.lobbies m.cid).getD freshLobby)
                  m.username m.sock).1).2 cid from hcnt]
            exact h1
          · intro hpos
            have hpos2 : 0 < countBackendEnd (dispatch (setLobby s m.cid
                (applyTrack s.closedSockets ((aget s.lobbies m.cid).getD freshLobby)
                  m.username m.sock).1) s.closedSockets m
              (applyTrack s.closedSockets ((aget s.lobbies m.cid).getD freshLobby)
                m.username m.sock).1).2 cid := by
              have hx : 0 < countBackendEnd
                  ((if m.type = MsgType.join
                      then [Output.backendValidate m.cid m.username] else []) ++
                    (applyTrack s.closedSockets ((aget s.lobbies m.cid).getD freshLobby)
                      m.username m.sock).2 ++
                    (dispatch (setLobby s m.cid
                        (applyTrack s.closedSockets
                          ((aget s.lobbies m.cid).getD freshLobby)
                          m.username m.sock).1) s.closedSockets m
                      (applyTrack s.closedSockets ((aget s.lobbies m.cid).getD freshLobby)
                        m.username m.sock).1).2) cid := hpos
              rw [hcnt] at hx
              exact hx
            obtain ⟨hcid, hne, l', hpost, hended⟩ := hdd.2 hpos2
            subst hcid
            exact ⟨l', hpost, hended⟩
          · intro l hal he
            have hlob : (aget s.lobbies m.cid).getD freshLobby = l ∨ cid ≠ m.cid := by
              by_cases hc : cid = m.cid
              · left
                rw [← hc, hal]
                rfl
              · right
                exact hc
            by_contra h0
            have hpos : 0 < countBackendEnd ((if m.type = MsgType.join
                then [Output.backendValidate m.cid m.username] else []) ++
              (applyTrack s.closedSockets ((aget s.lobbies m.cid).getD freshLobby)
                m.username m.sock).2 ++
              (dispatch (setLobby s m.cid
                  (applyTrack s.closedSockets ((aget s.lobbies m.cid).getD freshLobby)
                    m.username m.sock).1) s.closedSockets m
                (applyTrack s.closedSockets ((aget s.lobbies m.cid).getD freshLobby)
                  m.username m.sock).1).2) cid := Nat.pos_of_ne_zero h0
            rw [hcnt] at hpos
            obtain ⟨hcid, hne, _⟩ := hdd.2 hpos
            rcases hlob with hlob | hlob
            · have htf := (applyTrack_flags s.closedSockets
                ((aget s.lobbies m.cid).getD freshLobby) m.username m.sock).1
              rw [htf, hlob, he] at hne
              exact absurd hne (by simp)
            · exact absurd hcid hlob
  case socketClose k =>
    rcases hf : findPlayerBySocket k s.lobbies with _ | q
    · simp only [step, handleClose, hf]
      exact end_count_triple_zero [] _ s cid (countBackendEnd_nil cid)
    · rcases q with ⟨cid0, l0, u, p⟩
      simp only [step, handleClose, hf]
      exact end_count_triple_zero _ _ s cid (countBackendEnd_broadcast _ _ _ _ _)
  case graceExpire c u =>
    rcases hla : aget s.lobbies c with _ | l0
    · simp only [step, handleGrace, hla]
      exact end_count_triple_zero [] _ s cid (countBackendEnd_nil cid)
    · rcases hd : aget l0.disconnectedPlayers u with _ | d
      · simp only [step, handleGrace, hla, hd]
        exact end_count_triple_zero [] _ s cid (countBackendEnd_nil cid)
      · simp only [step, handleGrace, hla, hd]
        split
        · split
          · have hee := endChallenge_end_count (setLobby s c { l0 with
                disconnectedPlayers := adel l0.disconnectedPlayers u }) c
              "All players disconnected" cid
            refine ⟨hee.1, ?_, ?_⟩
            · intro hpos
              obtain ⟨hcid, _, l', hpost, hended⟩ := hee.2 hpos
              subst hcid
              exact ⟨l', hpost, hended⟩
            · intro l hal he
              by_contra h0
              have hpos := Nat.pos_of_ne_zero h0
              obtain ⟨hcid, ⟨lx, hlx, hlxe⟩, _⟩ := hee.2 hpos
              subst hcid
              have hx : lx = { l0 with
                  disconnectedPlayers := adel l0.disconnectedPlayers u } := by
                have := (aget_aset_self s.lobbies cid ({ l0 with
                    disconnectedPlayers := adel l0.disconnectedPlayers u })).symm.trans hlx
                exact (Option.some_inj.mp this).symm
              have hl0 : l0 = l := by
                rw [hla] at hal
                exact Option.some_inj.mp hal
              rw [hx] at hlxe
              have : l0.challengeEnded = false := hlxe
              rw [hl0, he] at this
              exact absurd this (by simp)
          · split
            · exact end_count_triple_zero [] _ s cid (countBackendEnd_nil cid)
            · exact end_count_triple_zero [] _ s cid (countBackendEnd_nil cid)
        · split
          · exact end_count_triple_zero _ _ s cid (countBackendEnd_broadcast _ _ _ _ _)
          · exact end_count_triple_zero [] _ s cid (countBackendEnd_nil cid)
  case tickExpire c =>
    rcases hla : aget s.lobbies c with _ | l0
    · simp only [step, handleTick, hla]
      exact end_count_triple_zero [] _ s cid (countBackendEnd_nil cid)
    · rcases ht : l0.timer with _ | t
      · simp only [step, handleTick, hla, ht]
        exact end_count_triple_zero [] _ s cid (countBackendEnd_nil cid)
      · simp only [step, handleTick, hla, ht]
        split
        · exact end_count_triple_zero [] _ s cid (countBackendEnd_nil cid)
        · have hee := endChallenge_end_count (setLobby s c { l0 with
              timer := some { t with intervalCleared := true } }) c "Timer expired" cid
          refine ⟨hee.1, ?_, ?_⟩
          · intro hpos
            obtain ⟨hcid, _, l', hpost, hended⟩ := hee.2 hpos
            subst hcid
            exact ⟨l', hpost, hended⟩
          · intro l hal he
            by_contra h0
            have hpos := Nat.pos_of_ne_zero h0
            obtain ⟨hcid, ⟨lx, hlx, hlxe⟩, _⟩ := hee.2 hpos
            subst hcid
            have hx : lx = { l0 with
                timer := some { t with intervalCleared := true } } := by
              have := (aget_aset_self s.lobbies cid ({ l0 with
                  timer := some { t with intervalCleared := true } })).symm.trans hlx
              exact (Option.some_inj.mp this).symm
            have hl0 : l0 = l := by
              rw [hla] at hal
              exact Option.some_inj.mp hal
            rw [hx] at hlxe
            have : l0.challengeEnded = false := hlxe
            rw [hl0, he] at this
            exact absurd this (by simp)
  case backstopFire c =>
    rcases hla : aget s.lobbies c with _ | l0
    · simp only [step, handleBackstop, hla]
      exact end_count_triple_zero [] _ s cid (countBackendEnd_nil cid)
    · simp only [step, handleBackstop, hla]
      split
      · rcases ht : l0.timer with _ | t
        · exact end_count_triple_zero [] _ s cid (countBackendEnd_nil cid)
        · have hee := endChallenge_end_count (setLobby s c { l0 with
              backstopPending := false
              timer := some { t with intervalCleared := true } }) c "Timer expired" cid
          refine ⟨hee.1, ?_, ?_⟩
          · intro hpos
            obtain ⟨hcid, _, l', hpost, hended⟩ := hee.2 hpos
            subst hcid
            exact ⟨l', hpost, hended⟩
          · intro l hal he
            by_contra h0
            have hpos := Nat.pos_of_ne_zero h0
            obtain ⟨hcid, ⟨lx, hlx, hlxe⟩, _⟩ := hee.2 hpos
            subst hcid
            have hx : lx = { l0 with
                backstopPending := false
                timer := some { t with intervalCleared := true } } := by
              have := (aget_aset_self s.lobbies cid ({ l0 with
                  backstopPending := false
                  timer := some { t with intervalCleared := true } })).symm.trans hlx
              exact (Option.some_inj.mp this).symm
            have hl0 : l0 = l := by
              rw [hla] at hal
              exact Option.some_inj.mp hal
            rw [hx] at hlxe
            have : l0.challengeEnded = false := hlxe
            rw [hl0, he] at this
            exact absurd this (by simp)
      · exact end_count_triple_zero [] _ s cid (countBackendEnd_nil cid)
  case startResolve c ok =>
    rcases hla : aget s.lobbies c with _ | l0
    · simp only [step, handleStartResolve, hla]
      exact end_count_triple_zero [] _ s cid (countBackendEnd_nil cid)
    · simp only [step, handleStartResolve, hla]
      split
      · refine end_count_triple_zero _ _ s cid ?_
        rw [countBackendEnd_append, countBackendEnd_broadcast]
        split
        · rw [countBackendEnd_broadcast]
        · rw [countBackendEnd_nil]
      · exact end_count_triple_zero [] _ s cid (countBackendEnd_nil cid)
  case endResolve c ok =>
    rcases hla : aget s.lobbies c with _ | l0
    · simp only [step, handleEndResolve, hla]
      exact end_count_triple_zero [] _ s cid (countBackendEnd_nil cid)
    · simp only [step, handleEndResolve, hla]
      split
      · refine end_count_triple_zero _ _ s cid ?_
        split
        · rw [countBackendEnd_broadcast]
        · rw [countBackendEnd_nil]
      · exact end_count_triple_zero [] _ s cid (countBackendEnd_nil cid)
  case cleanupFire c =>
    rcases hla : aget s.lobbies c with _ | l0
    · simp only [step, handleCleanup, hla]
      exact end_count_triple_zero [] _ s cid (countBackendEnd_nil cid)
    · simp only [step, handleCleanup, hla]
      split
      · exact end_count_triple_zero [] _ s cid (countBackendEnd_nil cid)
      · exact end_count_triple_zero [] _ s cid (countBackendEnd_nil cid)
  case inactivityFire c =>
    rcases hla : aget s.lobbies c with _ | l0
    · simp only [step, handleInactivity, hla]
      exact end_count_triple_zero [] _ s cid (countBackendEnd_nil cid)
    · simp only [step, handleInactivity, hla]
      split
      · split
        · exact end_count_triple_zero _ _ s cid (countBackendEnd_broadcast _ _ _ _ _)
        · exact end_count_triple_zero [] _ s cid (countBackendEnd_nil cid)
      · exact end_count_triple_zero [] _ s cid (countBackendEnd_nil cid)

/-- One step emits at most one backend `startChallenge` mutation per lobby;
a positive emission leaves the post-state lobby flagged `started`, and a
pre-state lobby already flagged `started` suppresses any emission. -/
theorem step_start_count (s : SysState) (e : Event) (cid : String) :
    countBackendStart (step s e).2 cid ≤ 1 ∧
    (0 < countBackendStart (step s e).2 cid →
      ∃ l', aget (step s e).1.lobbies cid = some l' ∧ l'.started = true) ∧
    (∀ l, aget s.lobbies cid = some l → l.started = true →
      countBackendStart (step s e).2 cid = 0) := by
  cases e
  case msg m =>
    simp only [step, handleMsg]
    split
    · exact start_count_triple_zero [] _ s cid (countBackendStart_nil cid)
    · split
      · exact start_count_triple_zero _ _ s cid
          (by rw [countBackendStart_validate, countBackendStart_send]; rfl)
      · split
        · exact start_count_triple_zero _ _ s cid
            (by rw [countBackendStart_append]
                split
                · rw [countBackendStart_validate, countBackendStart_nil,
                    countBackendStart_send, countBackendStart_nil]
                · rw [countBackendStart_nil, countBackendStart_send,
                    countBackendStart_nil])
        · have hcnt : countBackendStart
              ((if m.type = MsgType.join
                  then [Output.backendValidate m.cid m.username] else []) ++
                (applyTrack s.closedSockets ((aget s.lobbies m.cid).getD freshLobby)
                  m.username m.sock).2 ++
                (dispatch (setLobby s m.cid
                    (applyTrack s.closedSockets ((aget s.lobbies m.cid).getD freshLobby)
                      m.username m.sock).1) s.closedSockets m
                  (applyTrack s.closedSockets ((aget s.lobbies m.cid).getD freshLobby)
                    m.username m.sock).1).2) cid
              = countBackendStart (dispatch (setLobby s m.cid
                  (applyTrack s.closedSockets ((aget s.lobbies m.cid).getD freshLobby)
                    m.username m.sock).1) s.closedSockets m
                (applyTrack s.closedSockets ((aget s.lobbies m.cid).getD freshLobby)
                  m.username m.sock).1).2 cid := by
            rw [countBackendStart_append, countBackendStart_append, applyTrack_start_count]
            have hv : countBackendStart
                (if m.type = MsgType.join
                  then [Output.backendValidate m.cid m.username] else []) cid = 0 := by
              split
              · rw [countBackendStart_validate, countBackendStart_nil]
              · rw [countBackendStart_nil]
            rw [hv]
            omega
          have hdd := dispatch_start_count (setLobby s m.cid
              (applyTrack s.closedSockets ((aget s.lobbies m.cid).getD freshLobby)
                m.username m.sock).1) s.closedSockets m
            (applyTrack s.closedSockets ((aget s.lobbies m.cid).getD freshLobby)
              m.username m.sock).1 (aget_aset_self _ _ _) cid
          refine ⟨?_, ?_, ?_⟩
          · have h1 := hdd.1
            rw [show countBackendStart ((dispatch (setLobby s m.cid
                (applyTrack s.closedSockets ((aget s.lobbies m.cid).getD freshLobby)
                  m.username m.sock).1) s.closedSockets m
                (applyTrack s.closedSockets ((aget s.lobbies m.cid).getD freshLobby)
                  m.username m.sock).1).1,
                (if m.type = MsgType.join
                    then [Output.backendValidate m.cid m.username] else []) ++
                  (applyTrack s.closedSockets ((aget s.lobbies m.cid).getD freshLobby)
                    m.username m.sock).2 ++
                  (dispatch (setLobby s m.cid
                      (applyTrack s.closedSockets ((aget s.lobbies m.cid).getD freshLobby)
                        m.username m.sock).1) s.closedSockets m
                    (applyTrack s.closedSockets ((aget s.lobbies m.cid).getD freshLobby)
                      m.username m.sock).1).2).2 cid
              = countBackendStart (dispatch (setLobby s m.cid
                  (applyTrack s.closedSockets ((aget s.lobbies m.cid).getD freshLobby)
                    m.username m.sock).1) s.closedSockets m
                (applyTrack s.closedSockets ((aget s.lobbies m.cid).getD freshLobby)
                  m.username m.sock).1).2 cid from hcnt]
            exact h1
          · intro hpos
            have hpos2 : 0 < countBackendStart (dispatch (setLobby s m.cid
                (applyTrack s.closedSockets ((aget s.lobbies m.cid).getD freshLobby)
                  m.username m.sock).1) s.closedSockets m
              (applyTrack s.closedSockets ((aget s.lobbies m.cid).getD freshLobby)
                m.username m.sock).1).2 cid := by
              have hx : 0 < countBackendStart
                  ((if m.type = MsgType.join
                      then [Output.backendValidate m.cid m.username] else []) ++
                    (applyTrack s.closedSockets ((aget s.lobbies m.cid).getD freshLobby)
                      m.username m.sock).2 ++
                    (dispatch (setLobby s m.cid
                        (applyTrack s.closedSockets
                          ((aget s.lobbies m.cid).getD freshLobby)
                          m.username m.sock).1) s.closedSockets m
                      (applyTrack s.closedSockets ((aget s.lobbies m.cid).getD freshLobby)
                        m.username m.sock).1).2) cid := hpos
              rw [hcnt] at hx
              exact hx
            obtain ⟨hcid, hne, l', hpost, hst⟩ := hdd.2 hpos2
            subst hcid
            exact ⟨l', hpost, hst⟩
          · intro l hal he
            have hlob : (aget s.lobbies m.cid).getD freshLobby = l ∨ cid ≠ m.cid := by
              by_cases hc : cid = m.cid
              · left
                rw [← hc, hal]
                rfl
              · right
                exact hc
            by_contra h0
            have hpos : 0 < countBackendStart ((if m.type = MsgType.join
                then [Output.backendValidate m.cid m.username] else []) ++
              (applyTrack s.closedSockets ((aget s.lobbies m.cid).getD freshLobby)
                m.username m.sock).2 ++
              (dispatch (setLobby s m.cid
                  (applyTrack s.closedSockets ((aget s.lobbies m.cid).getD freshLobby)
                    m.username m.sock).1) s.closedSockets m
                (applyTrack s.closedSockets ((aget s.lobbies m.cid).getD freshLobby)
                  m.username m.sock).1).2) cid := Nat.pos_of_ne_zero h0
            rw [hcnt] at hpos
            obtain ⟨hcid, hne, _⟩ := hdd.2 hpos
            rcases hlob with hlob | hlob
            · have htf := (applyTrack_flags s.closedSockets
                ((aget s.lobbies m.cid).getD freshLobby) m.username m.sock).2.1
              rw [htf, hlob, he] at hne
              exact absurd hne (by simp)
            · exact absurd hcid hlob
  case socketClose k =>
    rcases hf : findPlayerBySocket k s.lobbies with _ | q
    · simp only [step, handleClose, hf]
      exact start_count_triple_zero [] _ s cid (countBackendStart_nil cid)
    · rcases q with ⟨cid0, l0, u, p⟩
      simp only [step, handleClose, hf]
      exact start_count_triple_zero _ _ s cid (countBackendStart_broadcast _ _ _ _ _)
  case graceExpire c u =>
    rcases hla : aget s.lobbies c with _ | l0
    · simp only [step, handleGrace, hla]
      exact start_count_triple_zero [] _ s cid (countBackendStart_nil cid)
    · rcases hd : aget l0.disconnectedPlayers u with _ | d
      · simp only [step, handleGrace, hla, hd]
        exact start_count_triple_zero [] _ s cid (countBackendStart_nil cid)
      · simp only [step, handleGrace, hla, hd]
        split
        · split
          · exact start_count_triple_zero _ _ s cid (endChallenge_start_count _ _ _ _)
          · split
            · exact start_count_triple_zero [] _ s cid (countBackendStart_nil cid)
            · exact start_count_triple_zero [] _ s cid (countBackendStart_nil cid)
        · split
          · exact start_count_triple_zero _ _ s cid
              (countBackendStart_broadcast _ _ _ _ _)
          · exact start_count_triple_zero [] _ s cid (countBackendStart_nil cid)
  case tickExpire c =>
    rcases hla : aget s.lobbies c with _ | l0
    · simp only [step, handleTick, hla]
      exact start_count_triple_zero [] _ s cid (countBackendStart_nil cid)
    · rcases ht : l0.timer with _ | t
      · simp only [step, handleTick, hla, ht]
        exact start_count_triple_zero [] _ s cid (countBackendStart_nil cid)
      · simp only [step, handleTick, hla, ht]
        split
        · exact start_count_triple_zero [] _ s cid (countBackendStart_nil cid)
        · exact start_count_triple_zero _ _ s cid (endChallenge_start_count _ _ _ _)
  case backstopFire c =>
    rcases hla : aget s.lobbies c with _ | l0
    · simp only [step, handleBackstop, hla]
      exact start_count_triple_zero [] _ s cid (countBackendStart_nil cid)
    · simp only [step, handleBackstop, hla]
      split
      · rcases ht : l0.timer with _ | t
        · exact start_count_triple_zero [] _ s cid (countBackendStart_nil cid)
        · exact start_count_triple_zero _ _ s cid (endChallenge_start_count _ _ _ _)
      · exact start_count_triple_zero [] _ s cid (countBackendStart_nil cid)
  case startResolve c ok =>
    rcases hla : aget s.lobbies c with _ | l0
    · simp only [step, handleStartResolve, hla]
      exact start_count_triple_zero [] _ s cid (countBackendStart_nil cid)
    · simp only [step, handleStartResolve, hla]
      split
      · refine start_count_triple_zero _ _ s cid ?_
        rw [countBackendStart_append, countBackendStart_broadcast]
        split
        · rw [countBackendStart_broadcast]
        · rw [countBackendStart_nil]
      · exact start_count_triple_zero [] _ s cid (countBackendStart_nil cid)
  case endResolve c ok =>
    rcases hla : aget s.lobbies c with _ | l0
    · simp only [step, handleEndResolve, hla]
      exact start_count_triple_zero [] _ s cid (countBackendStart_nil cid)
    · simp only [step, handleEndResolve, hla]
      split
      · refine start_count_triple_zero _ _ s cid ?_
        split
        · rw [countBackendStart_broadcast]
        · rw [countBackendStart_nil]
      · exact start_count_triple_zero [] _ s cid (countBackendStart_nil cid)
  case cleanupFire c =>
    rcases hla : aget s.lobbies c with _ | l0
    · simp only [step, handleCleanup, hla]
      exact start_count_triple_zero [] _ s cid (countBackendStart_nil cid)
    · simp only [step, handleCleanup, hla]
      split
      · exact start_count_triple_zero [] _ s cid (countBackendStart_nil cid)
      · exact start_count_triple_zero [] _ s cid (countBackendStart_nil cid)
  case inactivityFire c =>
    rcases hla : aget s.lobbies c with _ | l0
    · simp only [step, handleInactivity, hla]
      exact start_count_triple_zero [] _ s cid (countBackendStart_nil cid)
    · simp only [step, handleInactivity, hla]
      split
      · split
        · exact start_count_triple_zero _ _ s cid
            (countBackendStart_broadcast _ _ _ _ _)
        · exact start_count_triple_zero [] _ s cid (countBackendStart_nil cid)
      · exact start_count_triple_zero [] _ s cid (countBackendStart_nil cid)

/-! ### Registry shape preservation: well-formed lobby keys stay well-formed -/

theorem dispatch_lobbies_shape (s2 : SysState) (closed : List Nat) (m : Msg)
    (t1 : Lobby) :
    (dispatch s2 closed m t1).1.lobbies = s2.lobbies ∨
    ∃ v, (dispatch s2 closed m t1).1.lobbies = aset s2.lobbies m.cid v := by
  have hend : ∀ (s3 : SysState) (r : String),
      (s3.lobbies = s2.lobbies ∨ ∃ v, s3.lobbies = aset s2.lobbies m.cid v) →
      ((endChallenge s3 m.cid r).1.lobbies = s2.lobbies ∨
        ∃ v, (endChallenge s3 m.cid r).1.lobbies = aset s2.lobbies m.cid v) := by
    intro s3 r h3
    rcases hl : aget s3.lobbies m.cid with _ | l
    · rw [endChallenge_none r hl]
      exact h3
    · by_cases he : l.challengeEnded = true
      · rw [endChallenge_ended r hl he]
        exact h3
      · have hnf : l.challengeEnded = false := by simpa using he
        rw [endChallenge_not_ended r hl hnf]
        right
        rcases h3 with h3 | ⟨v, h3⟩
        · exact ⟨endedLobby l, by
            rw [show (setLobby s3 m.cid (endedLobby l)).lobbies
              = aset s3.lobbies m.cid (endedLobby l) from rfl, h3]⟩
        · exact ⟨endedLobby l, by
            rw [show (setLobby s3 m.cid (endedLobby l)).lobbies
              = aset s3.lobbies m.cid (endedLobby l) from rfl, h3, aset_aset]⟩
  cases htype : m.type
  case join =>
    exact Or.inl (by simp [dispatch, htype])
  case ready =>
    rcases hp : aget t1.players m.username with _ | p
    · exact Or.inl (by simp [dispatch, htype, hp])
    · simp only [dispatch, htype, hp]
      split
      · split
        · right
          exact ⟨_, rfl⟩
        · right
          exact ⟨_, rfl⟩
      · left
        rfl
  case codeRunning =>
    rcases hp : aget t1.players m.username with _ | p
    · exact Or.inl (by simp [dispatch, htype, hp])
    · simp only [dispatch, htype, hp]
      right
      exact ⟨_, rfl⟩
  case codeFinished =>
    rcases hp : aget t1.players m.username with _ | p
    · exact Or.inl (by simp [dispatch, htype, hp])
    · simp only [dispatch, htype, hp]
      right
      exact ⟨_, rfl⟩
  case testResults =>
    rcases hp : aget t1.players m.username with _ | p
    · rcases hv : m.testsPassed with _ | v <;>
        exact Or.inl (by simp [dispatch, htype, hp, hv])
    · rcases hv : m.testsPassed with _ | v
      · exact Or.inl (by simp [dispatch, htype, hp, hv])
      · simp only [dispatch, htype, hp, hv]
        right
        exact ⟨_, rfl⟩
  case codeSubmitted =>
    rcases hp : aget t1.players m.username with _ | p
    · rcases hr : m.submittedResults with _ | r <;>
        rcases hv : m.testsPassed with _ | v <;>
        exact Or.inl (by simp [dispatch, htype, hp, hr, hv])
    · rcases hr : m.submittedResults with _ | r
      · rcases hv : m.testsPassed with _ | v <;>
          exact Or.inl (by simp [dispatch, htype, hp, hr, hv])
      · rcases hv : m.testsPassed with _ | v
        · exact Or.inl (by simp [dispatch, htype, hp, hr, hv])
        · simp only [dispatch, htype, hp, hr, hv]
          split
          · right
            exact ⟨_, rfl⟩
          · right
            exact ⟨_, rfl⟩
  case endChallenge =>
    simp only [dispatch, htype]
    split
    · exact hend s2 _ (Or.inl rfl)
    · left
      rfl
  case endChallengeForUser =>
    rcases hp : aget t1.players m.username with _ | p
    · exact Or.inl (by simp [dispatch, htype, hp])
    · simp only [dispatch, htype, hp]
      split
      · split
        · exact hend _ _ (Or.inr ⟨_, rfl⟩)
        · right
          exact ⟨_, rfl⟩
      · split
        · left
          rfl
        · left
          rfl
  case unknown =>
    exact Or.inl (by simp [dispatch, htype])

/-- Every step leaves the lobby registry equal to the original, an `aset`
of it, an `adel` of it, or an `adel` of an `aset` of it. -/
theorem step_lobbies_shape (s : SysState) (e : Event) :
    (step s e).1.lobbies = s.lobbies ∨
    (∃ c v, (step s e).1.lobbies = aset s.lobbies c v) ∨
    (∃ c v, (step s e).1.lobbies = adel (aset s.lobbies c v) c) ∨
    (∃ c, (step s e).1.lobbies = adel s.lobbies c) := by
  have hendS : ∀ (c : String) (l1 : Lobby) (r : String),
      ∃ v, (endChallenge (setLobby s c l1) c r).1.lobbies = aset s.lobbies c v := by
    intro c l1 r
    have hl1 : aget (setLobby s c l1).lobbies c = some l1 := aget_aset_self _ _ _
    by_cases he : l1.challengeEnded = true
    · exact ⟨l1, by
        rw [endChallenge_ended r hl1 he]
        rfl⟩
    · have hnf : l1.challengeEnded = false := by simpa using he
      refine ⟨endedLobby l1, ?_⟩
      rw [endChallenge_not_ended r hl1 hnf]
      exact aset_aset s.lobbies c l1 (endedLobby l1)
  cases e
  case msg m =>
    simp only [step, handleMsg]
    split
    · left
      rfl
    · split
      · left
        rfl
      · split
        · left
          rfl
        · rcases dispatch_lobbies_shape (setLobby s m.cid
              (applyTrack s.closedSockets ((aget s.lobbies m.cid).getD freshLobby)
                m.username m.sock).1) s.closedSockets m
              (applyTrack s.closedSockets ((aget s.lobbies m.cid).getD freshLobby)
                m.username m.sock).1 with h | ⟨v, h⟩
          · right
            left
            exact ⟨m.cid, _, h⟩
          · right
            left
            exact ⟨m.cid, v, h.trans (aset_aset s.lobbies m.cid _ v)⟩
  case socketClose k =>
    rcases hf : findPlayerBySocket k s.lobbies with _ | q
    · exact Or.inl (by simp [step, handleClose, hf])
    · rcases q with ⟨cid0, l0, u, p⟩
      simp only [step, handleClose, hf]
      right
      left
      exact ⟨cid0, _, rfl⟩
  case graceExpire c u =>
    rcases hla : aget s.lobbies c with _ | l0
    · exact Or.inl (by simp [step, handleGrace, hla])
    · rcases hd : aget l0.disconnectedPlayers u with _ | d
      · exact Or.inl (by simp [step, handleGrace, hla, hd])
      · simp only [step, handleGrace, hla, hd]
        split
        · split
          · rcases hendS c { l0 with
                disconnectedPlayers := adel l0.disconnectedPlayers u }
              "All players disconnected" with ⟨v, hv⟩
            right
            left
            exact ⟨c, v, hv⟩
          · split
            · right
              right
              left
              exact ⟨c, _, rfl⟩
            · right
              left
              exact ⟨c, _, rfl⟩
        · split
          · right
            left
            exact ⟨c, _, rfl⟩
          · right
            left
            exact ⟨c, _, rfl⟩
  case tickExpire c =>
    rcases hla : aget s.lobbies c with _ | l0
    · exact Or.inl (by simp [step, handleTick, hla])
    · rcases ht : l0.timer with _ | t
      · exact Or.inl (by simp [step, handleTick, hla, ht])
      · simp only [step, handleTick, hla, ht]
        split
        · left
          rfl
        · rcases hendS c { l0 with
              timer := some { t with intervalCleared := true } }
            "Timer expired" with ⟨v, hv⟩
          right
          left
          exact ⟨c, v, hv⟩
  case backstopFire c =>
    rcases hla : aget s.lobbies c with _ | l0
    · exact Or.inl (by simp [step, handleBackstop, hla])
    · simp only [step, handleBackstop, hla]
      split
      · rcases ht : l0.timer with _ | t
        · right
          left
          exact ⟨c, _, rfl⟩
        · rcases hendS c { l0 with
              backstopPending := false
              timer := some { t with intervalCleared := true } }
            "Timer expired" with ⟨v, hv⟩
          right
          left
          exact ⟨c, v, hv⟩
      · left
        rfl
  case startResolve c ok =>
    rcases hla : aget s.lobbies c with _ | l0
    · exact Or.inl (by simp [step, handleStartResolve, hla])
    · simp only [step, handleStartResolve, hla]
      split
      · right
        left
        exact ⟨c, _, rfl⟩
      · left
        rfl
  case endResolve c ok =>
    rcases hla : aget s.lobbies c with _ | l0
    · exact Or.inl (by simp [step, handleEndResolve, hla])
    · simp only [step, handleEndResolve, hla]
      split
      · right
        left
        exact ⟨c, _, rfl⟩
      · left
        rfl
  case cleanupFire c =>
    rcases hla : aget s.lobbies c with _ | l0
    · exact Or.inl (by simp [step, handleCleanup, hla])
    · simp only [step, handleCleanup, hla]
      split
      · right
        right
        right
        exact ⟨c, rfl⟩
      · left
        rfl
  case inactivityFire c =>
    rcases hla : aget s.lobbies c with _ | l0
    · exact Or.inl (by simp [step, handleInactivity, hla])
    · simp only [step, handleInactivity, hla]
      split
      · split
        · right
          right
          right
          exact ⟨c, rfl⟩
        · right
          left
          exact ⟨c, _, rfl⟩
      · left
        rfl

/-- A step preserves uniqueness of the registered lobby ids. -/
theorem step_keys_nodup (s : SysState) (e : Event)
    (h : (keysOf s.lobbies).Nodup) : (keysOf (step s e).1.lobbies).Nodup := by
  rcases step_lobbies_shape s e with h1 | ⟨c, v, h1⟩ | ⟨c, v, h1⟩ | ⟨c, h1⟩
  · rw [h1]
    exact h
  · rw [h1]
    exact nodup_keysOf_aset _ _ _ h
  · rw [h1]
    exact nodup_keysOf_adel _ _ (nodup_keysOf_aset _ _ _ h)
  · rw [h1]
    exact nodup_keysOf_adel _ _ h

/-! ### Trace-level counting of backend mutations -/

theorem runOuts_cons (s : SysState) (e : Event) (rest : List Event) :
    runOuts s (e :: rest) = (step s e).2 ++ runOuts (step s e).1 rest := rfl

theorem runStates_cons (s : SysState) (e : Event) (rest : List Event) :
    runStates s (e :: rest) = s :: runStates (step s e).1 rest := rfl

theorem self_mem_runStates (s : SysState) (es : List Event) : s ∈ runStates s es := by
  cases es <;> simp [runStates]

theorem trace_end_count_zero (es : List Event) :
    ∀ (s : SysState) (cid : String) (l : Lobby),
    (keysOf s.lobbies).Nodup →
    aget s.lobbies cid = some l → l.challengeEnded = true →
    (∀ t ∈ runStates s es, (aget t.lobbies cid).isSome = true) →
    countBackendEnd (runOuts s es) cid = 0 := by
  induction es with
  | nil =>
    intro s cid l _ _ _ _
    rfl
  | cons e rest ih =>
    intro s cid l hWF hl he hpres
    rw [runOuts_cons, countBackendEnd_append]
    have h1 : countBackendEnd (step s e).2 cid = 0 :=
      (step_end_count s e cid).2.2 l hl he
    have hs' : (aget (step s e).1.lobbies cid).isSome = true :=
      hpres _ (by
        rw [runStates_cons]
        exact List.mem_cons_of_mem _ (self_mem_runStates _ _))
    rcases ho : aget (step s e).1.lobbies cid with _ | l'
    · rw [ho] at hs'
      simp at hs'
    · have he' : l'.challengeEnded = true :=
        (step_flags_mono s e cid l l' hWF hl ho).1 he
      have h2 := ih (step s e).1 cid l' (step_keys_nodup s e hWF) ho he'
        (fun t ht => hpres t (by
          rw [runStates_cons]
          exact List.mem_cons_of_mem _ ht))
      rw [h1, h2]

theorem trace_end_count_le_one (es : List Event) :
    ∀ (s : SysState) (cid : String),
    (keysOf s.lobbies).Nodup →
    (∀ t ∈ runStates s es, (aget t.lobbies cid).isSome = true) →
    countBackendEnd (runOuts s es) cid ≤ 1 := by
  induction es with
  | nil =>
    intro s cid _ _
    exact Nat.zero_le 1
  | cons e rest ih =>
    intro s cid hWF hpres
    rw [runOuts_cons, countBackendEnd_append]
    have hWF' := step_keys_nodup s e hWF
    have hpres' : ∀ t ∈ runStates (step s e).1 rest,
        (aget t.lobbies cid).isSome = true := fun t ht => hpres t (by
      rw [runStates_cons]
      exact List.mem_cons_of_mem _ ht)
    by_cases h0 : countBackendEnd (step s e).2 cid = 0
    · have h2 := ih (step s e).1 cid hWF' hpres'
      omega
    · have hpos := Nat.pos_of_ne_zero h0
      have hle1 := (step_end_count s e cid).1
      obtain ⟨l', ho, he'⟩ := (step_end_count s e cid).2.1 hpos
      have h2 := trace_end_count_zero rest (step s e).1 cid l' hWF' ho he' hpres'
      omega

theorem trace_start_count_zero (es : List Event) :
    ∀ (s : SysState) (cid : String) (l : Lobby),
    (keysOf s.lobbies).Nodup →
    aget s.lobbies cid = some l → l.started = true →
    (∀ t ∈ runStates s es, (aget t.lobbies cid).isSome = true) →
    countBackendStart (runOuts s es) cid = 0 := by
  induction es with
  | nil =>
    intro s cid l _ _ _ _
    rfl
  | cons e rest ih =>
    intro s cid l hWF hl he hpres
    rw [runOuts_cons, countBackendStart_append]
    have h1 : countBackendStart (step s e).2 cid = 0 :=
      (step_start_count s e cid).2.2 l hl he
    have hs' : (aget (step s e).1.lobbies cid).isSome = true :=
      hpres _ (by
        rw [runStates_cons]
        exact List.mem_cons_of_mem _ (self_mem_runStates _ _))
    rcases ho : aget (step s e).1.lobbies cid with _ | l'
    · rw [ho] at hs'
      simp at hs'
    · have he' : l'.started = true :=
        (step_flags_mono s e cid l l' hWF hl ho).2 he
      have h2 := ih (step s e).1 cid l' (step_keys_nodup s e hWF) ho he'
        (fun t ht => hpres t (by
          rw [runStates_cons]
          exact List.mem_cons_of_mem _ ht))
      rw [h1, h2]

theorem trace_start_count_le_one (es : List Event) :
    ∀ (s : SysState) (cid : String),
    (keysOf s.lobbies).Nodup →
    (∀ t ∈ runStates s es, (aget t.lobbies cid).isSome = true) →
    countBackendStart (runOuts s es) cid ≤ 1 := by
  induction es with
  | nil =>
    intro s cid _ _
    exact Nat.zero_le 1
  | cons e rest ih =>
    intro s cid hWF hpres
    rw [runOuts_cons, countBackendStart_append]
    have hWF' := step_keys_nodup s e hWF
    have hpres' : ∀ t ∈ runStates (step s e).1 rest,
        (aget t.lobbies cid).isSome = true := fun t ht => hpres t (by
      rw [runStates_cons]
      exact List.mem_cons_of_mem _ ht)
    by_cases h0 : countBackendStart (step s e).2 cid = 0
    · have h2 := ih (step s e).1 cid hWF' hpres'
      omega
    · have hpos := Nat.pos_of_ne_zero h0
      have hle1 := (step_start_count s e cid).1
      obtain ⟨l', ho, he'⟩ := (step_start_count s e cid).2.1 hpos
      have h2 := trace_start_count_zero rest (step s e).1 cid l' hWF' ho he' hpres'
      omega

/-! ### Per-lobby well-formedness is preserved by every step -/

theorem mem_aset_cases {V : Type} (l : List (String × V)) (k : String) (v : V) :
    ∀ e ∈ aset l k v, e ∈ l ∨ e = (k, v) := by
  induction l with
  | nil =>
    intro e he
    simp [aset] at he
    exact Or.inr he
  | cons a t ih =>
    intro e he
    by_cases hk : a.1 = k
    · rcases a with ⟨k1, v1⟩
      simp only [aset, if_pos hk] at he
      rcases List.mem_cons.mp he with he | he
      · exact Or.inr he
      · exact Or.inl (List.mem_cons_of_mem _ he)
    · rcases a with ⟨k1, v1⟩
      simp only [aset, if_neg hk] at he
      rcases List.mem_cons.mp he with he | he
      · exact Or.inl (by rw [he]; exact List.mem_cons_self _ _)
      · rcases ih e he with h | h
        · exact Or.inl (List.mem_cons_of_mem _ h)
        · exact Or.inr h

theorem wfAll_aset (L : List (String × Lobby)) (c : String) (v : Lobby)
    (hall : ∀ e ∈ L, LobbyWF e.2) (hv : LobbyWF v) :
    ∀ e ∈ aset L c v, LobbyWF e.2 := by
  intro e he
  rcases mem_aset_cases L c v e he with h | h
  · exact hall e h
  · rw [h]
    exact hv

theorem wfAll_adel (L : List (String × Lobby)) (c : String)
    (hall : ∀ e ∈ L, LobbyWF e.2) : ∀ e ∈ adel L c, LobbyWF e.2 :=
  fun e he => hall e ((adel_sublist L c).subset he)

theorem lobbyWF_freshLobby : LobbyWF freshLobby := by
  refine ⟨List.nodup_nil, List.nodup_nil, List.nodup_nil, ?_⟩
  intro u h
  exact absurd h.1 (by simp [freshLobby, keysOf])

theorem lobbyWF_endedLobby (l : Lobby) (h : LobbyWF l) : LobbyWF (endedLobby l) := h

theorem lobbyWF_close (l : Lobby) (u : String) (p : Player) (h : LobbyWF l) :
    LobbyWF { l with
      disconnectedPlayers := aset l.disconnectedPlayers u { playerData := p }
      players := adel l.players u } := by
  obtain ⟨h1, h2, h3, h4⟩ := h
  refine ⟨nodup_keysOf_adel _ _ h1, nodup_keysOf_aset _ _ _ h2, h3, ?_⟩
  intro u2 h5
  obtain ⟨hp, hd⟩ := h5
  rcases (mem_keysOf_aset _ _ _ _).mp hd with hd2 | he
  · exact h4 u2 ⟨mem_keysOf_adel hp, hd2⟩
  · rw [he] at hp
    exact not_mem_keysOf_adel_self _ _ h1 hp

theorem lobbyWF_ungrace (l : Lobby) (u : String) (h : LobbyWF l) :
    LobbyWF { l with disconnectedPlayers := adel l.disconnectedPlayers u } := by
  obtain ⟨h1, h2, h3, h4⟩ := h
  exact ⟨h1, nodup_keysOf_adel _ _ h2, h3,
    fun u2 h5 => h4 u2 ⟨h5.1, mem_keysOf_adel h5.2⟩⟩

theorem lobbyWF_aset_player_known (l : Lobby) (u : String) (p v : Player)
    (hk : aget l.players u = some p) (h : LobbyWF l) :
    LobbyWF { l with players := aset l.players u v } := by
  obtain ⟨h1, h2, h3, h4⟩ := h
  refine ⟨nodup_keysOf_aset _ _ _ h1, h2, h3, ?_⟩
  intro u2 h5
  obtain ⟨hp, hd⟩ := h5
  rcases (mem_keysOf_aset _ _ _ _).mp hp with hp2 | he
  · exact h4 u2 ⟨hp2, hd⟩
  · rw [he] at hd
    exact h4 u ⟨mem_keysOf_of_aget hk, hd⟩

theorem lobbyWF_aset_player_nodisc (l : Lobby) (u : String) (v : Player)
    (hd0 : aget l.disconnectedPlayers u = none) (h : LobbyWF l) :
    LobbyWF { l with players := aset l.players u v } := by
  obtain ⟨h1, h2, h3, h4⟩ := h
  refine ⟨nodup_keysOf_aset _ _ _ h1, h2, h3, ?_⟩
  intro u2 h5
  obtain ⟨hp, hd⟩ := h5
  rcases (mem_keysOf_aset _ _ _ _).mp hp with hp2 | he
  · exact h4 u2 ⟨hp2, hd⟩
  · rw [he] at hd
    exact absurd hd ((aget_eq_none_iff _ _).mp hd0)

theorem lobbyWF_reconnect (l : Lobby) (u : String) (v : Player) (h : LobbyWF l) :
    LobbyWF { l with
      players := aset l.players u v
      disconnectedPlayers := adel l.disconnectedPlayers u } := by
  obtain ⟨h1, h2, h3, h4⟩ := h
  refine ⟨nodup_keysOf_aset _ _ _ h1, nodup_keysOf_adel _ _ h2, h3, ?_⟩
  intro u2 h5
  obtain ⟨hp, hd⟩ := h5
  rcases (mem_keysOf_aset _ _ _ _).mp hp with hp2 | he
  · exact h4 u2 ⟨hp2, mem_keysOf_adel hd⟩
  · rw [he] at hd
    exact not_mem_keysOf_adel_self _ _ h2 hd

theorem lobbyWF_complete (l : Lobby) (u : String) (ce : CompEntry) (h : LobbyWF l) :
    LobbyWF { l with
      completedPlayers := aset l.completedPlayers u ce
      players := adel l.players u } := by
  obtain ⟨h1, h2, h3, h4⟩ := h
  exact ⟨nodup_keysOf_adel _ _ h1, h2, nodup_keysOf_aset _ _ _ h3,
    fun u2 h5 => h4 u2 ⟨mem_keysOf_adel h5.1, h5.2⟩⟩

theorem applyTrack_lobbyWF (closed : List Nat) (l : Lobby) (u : String) (k : Nat)
    (h : LobbyWF l) : LobbyWF (applyTrack closed l u k).1 := by
  rcases hd : aget l.disconnectedPlayers u with _ | d
  · rcases hp : aget l.players u with _ | p
    · simp only [applyTrack, hd, hp]
      exact lobbyWF_aset_player_nodisc l u (freshPlayer k) hd h
    · simp only [applyTrack, hd, hp]
      exact lobbyWF_aset_player_known l u p { p with socket := k } hp h
  · simp only [applyTrack, hd]
    exact lobbyWF_reconnect l u { d.playerData with socket := k } h

theorem endChallenge_lobbyWF (s3 : SysState) (cid r : String)
    (hall : ∀ q ∈ s3.lobbies, LobbyWF q.2) :
    ∀ q ∈ (endChallenge s3 cid r).1.lobbies, LobbyWF q.2 := by
  rcases hl : aget s3.lobbies cid with _ | l
  · rw [endChallenge_none r hl]
    exact hall
  · by_cases he : l.challengeEnded = true
    · rw [endChallenge_ended r hl he]
      exact hall
    · have hnf : l.challengeEnded = false := by simpa using he
      rw [endChallenge_not_ended r hl hnf]
      exact wfAll_aset _ _ _ hall
        (lobbyWF_endedLobby l (hall (cid, l) (aget_pair_mem hl)))

theorem dispatch_lobbyWF (s2 : SysState) (closed : List Nat) (m : Msg) (t1 : Lobby)
    (hall : ∀ q ∈ s2.lobbies, LobbyWF q.2) (ht : LobbyWF t1) :
    ∀ q ∈ (dispatch s2 closed m t1).1.lobbies, LobbyWF q.2 := by
  cases htype : m.type
  case join =>
    simp only [dispatch, htype]
    exact hall
  case ready =>
    rcases hp : aget t1.players m.username with _ | p
    · simp only [dispatch, htype, hp]
      exact hall
    · simp only [dispatch, htype, hp]
      split
      · split
        · exact wfAll_aset _ _ _ hall
            (lobbyWF_aset_player_known t1 m.username p { p with ready := !p.ready } hp ht)
        · exact wfAll_aset _ _ _ hall
            (lobbyWF_aset_player_known t1 m.username p { p with ready := !p.ready } hp ht)
      · exact hall
  case codeRunning =>
    rcases hp : aget t1.players m.username with _ | p
    · simp only [dispatch, htype, hp]
      exact hall
    · simp only [dispatch, htype, hp]
      exact wfAll_aset _ _ _ hall
        (lobbyWF_aset_player_known t1 m.username p { p with running := true } hp ht)
  case codeFinished =>
    rcases hp : aget t1.players m.username with _ | p
    · simp only [dispatch, htype, hp]
      exact hall
    · simp only [dispatch, htype, hp]
      exact wfAll_aset _ _ _ hall
        (lobbyWF_aset_player_known t1 m.username p { p with running := false } hp ht)
  case testResults =>
    rcases hp : aget t1.players m.username with _ | p
    · rcases hv : m.testsPassed with _ | v <;> simp only [dispatch, htype, hp, hv] <;>
        exact hall
    · rcases hv : m.testsPassed with _ | v
      · simp only [dispatch, htype, hp, hv]
        exact hall
      · simp only [dispatch, htype, hp, hv]
        exact wfAll_aset _ _ _ hall
          (lobbyWF_aset_player_known t1 m.username p
            { p with testsPassed := v, latestScore := v } hp ht)
  case codeSubmitted =>
    rcases hp : aget t1.players m.username with _ | p
    · rcases hr : m.submittedResults with _ | r <;>
        rcases hv : m.testsPassed with _ | v <;>
        simp only [dispatch, htype, hp, hr, hv] <;> exact hall
    · rcases hr : m.submittedResults with _ | r
      · rcases hv : m.testsPassed with _ | v <;>
          simp only [dispatch, htype, hp, hr, hv] <;> exact hall
      · rcases hv : m.testsPassed with _ | v
        · simp only [dispatch, htype, hp, hr, hv]
          exact hall
        · simp only [dispatch, htype, hp, hr, hv]
          split
          · exact wfAll_aset _ _ _ hall
              (lobbyWF_aset_player_known t1 m.username p
                { p with
                  submitted := true
                  submittedResults := r
                  submittedTestsPassed := v
                  latestScore := r } hp ht)
          · exact wfAll_aset _ _ _ hall
              (lobbyWF_aset_player_known t1 m.username p
                { p with
                  submitted := true
                  submittedResults := r
                  submittedTestsPassed := v
                  latestScore := r } hp ht)
  case endChallenge =>
    simp only [dispatch, htype]
    split
    · exact endChallenge_lobbyWF s2 m.cid _ hall
    · exact hall
  case endChallengeForUser =>
    rcases hp : aget t1.players m.username with _ | p
    · simp only [dispatch, htype, hp]
      exact hall
    · simp only [dispatch, htype, hp]
      have hl1 : LobbyWF { t1 with
          completedPlayers := aset t1.completedPlayers m.username
            { snapshot := p, finalScore := jsOr p.submittedResults 0 }
          players := adel t1.players m.username } :=
        lobbyWF_complete t1 m.username
          { snapshot := p, finalScore := jsOr p.submittedResults 0 } ht
      split
      · split
        · exact endChallenge_lobbyWF (setLobby s2 m.cid _) m.cid _
            (wfAll_aset _ _ _ hall hl1)
        · exact wfAll_aset _ _ _ hall hl1
      · split
        · exact hall
        · exact hall
  case unknown =>
    simp only [dispatch, htype]
    exact hall

/-- A step preserves well-formedness of every registered lobby. -/
theorem step_lobbyWF (s : SysState) (e : Event) (hWF : SysWF s) :
    ∀ q ∈ (step s e).1.lobbies, LobbyWF q.2 := by
  obtain ⟨hnd, hall⟩ := hWF
  cases e
  case msg m =>
    simp only [step, handleMsg]
    split
    · exact hall
    · split
      · exact hall
      · split
        · exact hall
        · have hl0 : LobbyWF ((aget s.lobbies m.cid).getD freshLobby) := by
            rcases hx : aget s.lobbies m.cid with _ | l
            · exact lobbyWF_freshLobby
            · exact hall (m.cid, l) (aget_pair_mem hx)
          exact dispatch_lobbyWF _ s.closedSockets m _
            (wfAll_aset _ _ _ hall
              (applyTrack_lobbyWF s.closedSockets _ m.username m.sock hl0))
            (applyTrack_lobbyWF s.closedSockets _ m.username m.sock hl0)
  case socketClose k =>
    rcases hf : findPlayerBySocket k s.lobbies with _ | q
    · simp only [step, handleClose, hf]
      exact hall
    · rcases q with ⟨cid0, l0, u, p⟩
      simp only [step, handleClose, hf]
      have hmem := findPlayerBySocket_mem k s.lobbies cid0 l0 u p hf
      exact wfAll_aset _ _ _ hall (lobbyWF_close l0 u p (hall (cid0, l0) hmem.1))
  case graceExpire c u =>
    rcases hla : aget s.lobbies c with _ | l0
    · simp only [step, handleGrace, hla]
      exact hall
    · rcases hd : aget l0.disconnectedPlayers u with _ | d
      · simp only [step, handleGrace, hla, hd]
        exact hall
      · simp only [step, handleGrace, hla, hd]
        have hl1 : LobbyWF { l0 with
            disconnectedPlayers := adel l0.disconnectedPlayers u } :=
          lobbyWF_ungrace l0 u (hall (c, l0) (aget_pair_mem hla))
        split
        · split
          · exact endChallenge_lobbyWF (setLobby s c _) c _ (wfAll_aset _ _ _ hall hl1)
          · split
            · exact wfAll_adel _ _ (wfAll_aset _ _ _ hall hl1)
            · exact wfAll_aset _ _ _ hall hl1
        · split
          · exact wfAll_aset _ _ _ hall hl1
          · exact wfAll_aset _ _ _ hall hl1
  case tickExpire c =>
    rcases hla : aget s.lobbies c with _ | l0
    · simp only [step, handleTick, hla]
      exact hall
    · rcases ht : l0.timer with _ | t
      · simp only [step, handleTick, hla, ht]
        exact hall
      · simp only [step, handleTick, hla, ht]
        split
        · exact hall
        · have hl0 := hall (c, l0) (aget_pair_mem hla)
          exact endChallenge_lobbyWF (setLobby s c _) c _
            (wfAll_aset _ _ _ hall hl0)
  case backstopFire c =>
    rcases hla : aget s.lobbies c with _ | l0
    · simp only [step, handleBackstop, hla]
      exact hall
    · simp only [step, handleBackstop, hla]
      have hl0 := hall (c, l0) (aget_pair_mem hla)
      split
      · rcases ht : l0.timer with _ | t
        · exact wfAll_aset _ _ _ hall hl0
        · exact endChallenge_lobbyWF (setLobby s c _) c _
            (wfAll_aset _ _ _ hall hl0)
      · exact hall
  case startResolve c ok =>
    rcases hla : aget s.lobbies c with _ | l0
    · simp only [step, handleStartResolve, hla]
      exact hall
    · simp only [step, handleStartResolve, hla]
      have hl0 := hall (c, l0) (aget_pair_mem hla)
      split
      · exact wfAll_aset _ _ _ hall hl0
      · exact hall
  case endResolve c ok =>
    rcases hla : aget s.lobbies c with _ | l0
    · simp only [step, handleEndResolve, hla]
      exact hall
    · simp only [step, handleEndResolve, hla]
      have hl0 := hall (c, l0) (aget_pair_mem hla)
      split
      · exact wfAll_aset _ _ _ hall hl0
      · exact hall
  case cleanupFire c =>
    rcases hla : aget s.lobbies c with _ | l0
    · simp only [step, handleCleanup, hla]
      exact hall
    · simp only [step, handleCleanup, hla]
      split
      · exact wfAll_adel _ _ hall
      · exact hall
  case inactivityFire c =>
    rcases hla : aget s.lobbies c with _ | l0
    · simp only [step, handleInactivity, hla]
      exact hall
    · simp only [step, handleInactivity, hla]
      have hl0 := hall (c, l0) (aget_pair_mem hla)
      split
      · split
        · exact wfAll_adel _ _ hall
        · exact wfAll_aset _ _ _ hall hl0
      · exact hall

/-- A step preserves full system well-formedness. -/
theorem step_SysWF (s : SysState) (e : Event) (hWF : SysWF s) :
    SysWF (step s e).1 :=
  ⟨step_keys_nodup s e hWF.1, step_lobbyWF s e hWF⟩

theorem runState_SysWF (es : List Event) :
    ∀ s : SysState, SysWF s → SysWF (runState s es) := by
  induction es with
  | nil =>
    intro s h
    exact h
  | cons e rest ih =>
    intro s h
    exact ih (step s e).1 (step_SysWF s e h)

theorem initState_SysWF : SysWF initState := by
  constructor
  · simp [initState, keysOf]
  · intro q hq
    simp [initState] at hq

/-- Every state reachable from the empty start state is well-formed. -/
theorem reachable_SysWF (es : List Event) : SysWF (runState initState es) :=
  runState_SysWF es initState initState_SysWF

/-- C5 (amended): in every state reachable from the empty start state, a
username is never simultaneously in the active map and in the
disconnected-pending map of the same lobby; the completed set however is
not exclusive with the active set (see the pre-dispatch tracking,
server.js lines 86-96). -/
theorem active_disconnected_exclusive :
    ∀ (es : List Event) (cid u : String),
      u ∉ keysOf (lobbyAt (runState initState es) cid).players ∨
      u ∉ keysOf (lobbyAt (runState initState es) cid).disconnectedPlayers := by
  intro es cid u
  have hWF := reachable_SysWF es
  rcases hx : aget (runState initState es).lobbies cid with _ | l
  · left
    simp [lobbyAt, hx, freshLobby, keysOf]
  · have hLWF := hWF.2 (cid, l) (aget_pair_mem hx)
    have hex := hLWF.2.2.2 u
    simp only [lobbyAt, hx, Option.getD_some]
    by_cases hp : u ∈ keysOf l.players
    · right
      intro hd
      exact hex ⟨hp, hd⟩
    · left
      exact hp

/-- C1: `endChallenge` finalization happens exactly once per lobby: an
invocation on a missing lobby or on a lobby whose `challengeEnded` flag is
already set returns the state unchanged with no outputs, and along any
event trace over a registry with unique lobby ids in which the lobby stays
registered, at most one backend `endChallenge` mutation is emitted for it,
no matter how many triggers (explicit request, completion drain, tick
expiry, backstop, disconnection) fire. -/
theorem endChallenge_exactly_once :
    (∀ (s : SysState) (cid r : String),
      aget s.lobbies cid = none ∨ (lobbyAt s cid).challengeEnded = true →
      endChallenge s cid r = (s, [])) ∧
    (∀ (s : SysState) (es : List Event) (cid : String),
      (keysOf s.lobbies).Nodup →
      (∀ t ∈ runStates s es, (aget t.lobbies cid).isSome = true) →
      countBackendEnd (runOuts s es) cid ≤ 1) := by
  constructor
  · intro s cid r h
    rcases hx : aget s.lobbies cid with _ | l
    · exact endChallenge_none r hx
    · rcases h with h | h
      · rw [hx] at h
        exact absurd h (by simp)
      · have he : l.challengeEnded = true := by
          simp only [lobbyAt, hx, Option.getD_some] at h
          exact h
        exact endChallenge_ended r hx he
  · intro s es cid hWF hpres
    exact trace_end_count_le_one es s cid hWF hpres

/-- Witness for C1: after the challenge in lobby "abc" has been finalized
(by the explicit end request in `esEndTriggers`), a further `endChallenge`
call is a no-op, and the whole four-trigger trace emits at most one
backend end mutation. -/
theorem endChallenge_exactly_once_witness :
    endChallenge (runState initState (esStart ++ esEndTriggers)) "abc" "again"
      = (runState initState (esStart ++ esEndTriggers), []) ∧
    countBackendEnd (runOuts (runState initState esStart) esEndTriggers) "abc" ≤ 1 :=
  ⟨endChallenge_exactly_once.1 (runState initState (esStart ++ esEndTriggers))
      "abc" "again" (Or.inr (by decide)),
   endChallenge_exactly_once.2 (runState initState esStart) esEndTriggers "abc"
      (by decide) (by decide)⟩

/-- C6: the start-challenge side effects happen at most once per lobby: a
step taken from a state whose lobby already has `started = true` emits no
backend `startChallenge` mutation for it, and along any event trace over a
registry with unique lobby ids in which the lobby stays registered, at
most one backend `startChallenge` mutation is emitted for it, no matter
how many ready toggles satisfy the all-ready condition. -/
theorem start_at_most_once :
    (∀ (s : SysState) (e : Event) (cid : String) (l : Lobby),
      aget s.lobbies cid = some l → l.started = true →
      countBackendStart (step s e).2 cid = 0) ∧
    (∀ (s : SysState) (es : List Event) (cid : String),
      (keysOf s.lobbies).Nodup →
      (∀ t ∈ runStates s es, (aget t.lobbies cid).isSome = true) →
      countBackendStart (runOuts s es) cid ≤ 1) := by
  constructor
  · intro s e cid l hl hst
    exact (step_start_count s e cid).2.2 l hl hst
  · intro s es cid hWF hpres
    exact trace_start_count_le_one es s cid hWF hpres

/-- Witness for C6: with the "abc" challenge already started, a further
ready toggle emits no backend start call, and the ready-race trace (two
extra toggles after the all-ready condition first fired) emits at most one
backend start call. -/
theorem start_at_most_once_witness :
    countBackendStart (step (runState initState esStart)
        (Event.msg (plainMsg 1 MsgType.ready "abc" "alice"))).2 "abc" = 0 ∧
    countBackendStart (runOuts (runState initState esFirstJoin) esReadyRaceTail)
      "abc" ≤ 1 :=
  ⟨start_at_most_once.1 (runState initState esStart)
      (Event.msg (plainMsg 1 MsgType.ready "abc" "alice")) "abc"
      (lobbyAt (runState initState esStart) "abc") (by decide) (by decide),
   start_at_most_once.2 (runState initState esFirstJoin) esReadyRaceTail "abc"
      (by decide) (by decide)⟩

end MeetcodeSocket
